import Mathlib

/-!
Verification of the PP Builder CDN repository (GrapesJS ↔ Dataverse page
builder).  The definitions below are a shallow embedding of
`js/core/ppbuilder.serializer.js`, `js/core/ppbuilder.apiclient.js` and
`js/modules/ppbuilder.pagemanager.js`; theorems settle the frozen claims
about the block-tree codec, the settings/class mapper and the
page/version/block lifecycle client.
-/

namespace PPB

/-- Model of a JavaScript string-or-nullish value: `none` stands for
`undefined` or `null`; `some s` is the string `s`. -/
abbrev JStr := Option String

/-- JS truthiness of a `JStr` value: `undefined`, `null` and the empty
string are falsy, every other string is truthy. -/
def jsTruthy : JStr → Bool
  | none => false
  | some s => s ≠ ""

/-- JS `a || b` restricted to string-or-nullish values. -/
def jsOr (a b : JStr) : JStr := if jsTruthy a then a else b

/-- Model of a plain JS object used as a string-valued settings map:
an association list in property-insertion order.  `objSet` keeps keys
unique, matching JS object update semantics. -/
abbrev SettingsObj := List (String × String)

/-- Property read `o[k]`: first binding of `k`, `none` when absent. -/
def objGet (o : SettingsObj) (k : String) : JStr :=
  (o.find? (fun p => p.1 = k)).map (fun p => p.2)

/-- Property write `o[k] = v`: update in place when the key exists,
append otherwise (JS objects keep first-insertion key order). -/
def objSet (o : SettingsObj) (k v : String) : SettingsObj :=
  if o.any (fun p => p.1 = k) then
    o.map (fun p => if p.1 = k then (k, v) else p)
  else o ++ [(k, v)]

/-- `Object.assign(o, o')`: write every property of `o'` into `o`,
later writes overriding earlier bindings. -/
def objAssign (o o' : SettingsObj) : SettingsObj :=
  o'.foldl (fun acc p => objSet acc p.1 p.2) o

/-! ## Block tree codec (`ppbuilder.serializer.js`, utility methods)

`buildBlockTree` / `flattenBlockTree` work on records that may use either
the editor-side field names (`id`, `parentBlockId`) or the Dataverse
names (`pp_blockid`, `pp_parentblockid`); each lookup is
`block.id || block.pp_blockid` resp.
`block.parentBlockId || block.pp_parentblockid`. -/

/-- The fields of a block record that `flattenBlockTree` copies through
unchanged (`{...block}` minus the fields it overrides).  `payload`
stands for all remaining properties of the record. -/
structure BlockData where
  id : JStr
  pp_blockid : JStr
  pp_parentblockid : JStr
  payload : List (String × String)
deriving Repr, DecidableEq, Inhabited

/-- A flat block record as consumed/produced by `buildBlockTree` /
`flattenBlockTree`: carried data plus the `parentBlockId` and
`sortOrder` properties that `flattenBlockTree` overrides. -/
structure FlatBlock where
  data : BlockData
  parentBlockId : JStr
  sortOrder : Int
deriving Repr, DecidableEq, Inhabited

/-- A node of the nested block tree handed to `flattenBlockTree`
(`children` array plus the carried record fields). -/
inductive BlockNode : Type where
  | node (data : BlockData) (children : List BlockNode)
deriving Repr, Inhabited

/-- A node of the tree produced by `buildBlockTree`: the flat record
spread into the node (`{...block, children: []}`) plus the mutated
`children` array. -/
inductive BuiltNode : Type where
  | node (data : FlatBlock) (children : List BuiltNode)
deriving Repr, Inhabited

def BlockNode.data : BlockNode → BlockData
  | .node d _ => d

def BlockNode.children : BlockNode → List BlockNode
  | .node _ c => c

def BuiltNode.data : BuiltNode → FlatBlock
  | .node d _ => d

def BuiltNode.children : BuiltNode → List BuiltNode
  | .node _ c => c

/-- `block.id || block.pp_blockid` — the key under which a record is
stored in `buildBlockTree`'s `blockMap`. -/
def keyOf (b : FlatBlock) : JStr := jsOr b.data.id b.data.pp_blockid

/-- `block.parentBlockId || block.pp_parentblockid` — the resolved
parent reference of a flat record. -/
def parentOf (b : FlatBlock) : JStr := jsOr b.parentBlockId b.data.pp_parentblockid

mutual
/-- `flattenBlockTree`'s `traverse`: emit `{...block, parentBlockId,
sortOrder}` (children removed), then recurse into the children passing
`block.id` as their parent; returns the emitted records and the final
counter value. -/
def flattenNode : BlockNode → JStr → Nat → List FlatBlock × Nat
  | .node d cs, p, n =>
    let flat : FlatBlock := { data := d, parentBlockId := p, sortOrder := Int.ofNat n }
    let rest := flattenChildren cs d.id (n + 1)
    (flat :: rest.1, rest.2)

/-- Visit a list of sibling nodes in list order, threading the
sort-order counter. -/
def flattenChildren : List BlockNode → JStr → Nat → List FlatBlock × Nat
  | [], _, n => ([], n)
  | c :: cs, p, n =>
    let r1 := flattenNode c p n
    let r2 := flattenChildren cs p r1.2
    (r1.1 ++ r2.1, r2.2)
end

/-- `flattenBlockTree(rootBlocks)`: pre-order traversal of the forest,
roots with parent `null`, counter starting at 0. -/
def flattenBlockTree (roots : List BlockNode) : List FlatBlock :=
  (flattenChildren roots none 0).1

/-- `blockMap.get(k)` after the first pass of `buildBlockTree`:
`Map.set` overwrites, so the record stored under `k` is the last record
of the list whose key is `k`. -/
def mapNode (flats : List FlatBlock) (k : JStr) : FlatBlock :=
  ((flats.filter (fun b => keyOf b = k)).getLast?).getD default

/-- The records pushed (in input order) into the children array of the
map node stored under key `k`: those whose truthy resolved parent
reference equals `k`.  (`buildBlockTree` pushes `current` into
`parent.children` exactly when `parentId` is truthy and
`blockMap.get(parentId)` exists; the latter holds whenever `k` is a key
of the map, which is the case for every node reachable from a root.) -/
def childRecs (flats : List FlatBlock) (k : JStr) : List FlatBlock :=
  flats.filter (fun b => jsTruthy (parentOf b) && parentOf b = k)

/-- Functional reading of `buildBlockTree`'s mutation-based tree
construction: the node stored under key `k` carries the map record for
`k` and, fully populated, the nodes of the records whose resolved
parent is `k`.  `fuel` bounds the unfolding depth; `buildBlockTree`
passes the list length, which suffices for every input whose parent
links are acyclic (in particular for every output of
`flattenBlockTree`).  On cyclic inputs the JS code builds a cyclic
object graph; this model truncates it instead. -/
def buildNode (flats : List FlatBlock) : Nat → JStr → BuiltNode
  | 0, k => .node (mapNode flats k) []
  | fuel + 1, k =>
    .node (mapNode flats k)
      ((childRecs flats k).map (fun b => buildNode flats fuel (keyOf b)))

/-- `buildBlockTree(flatBlocks)`: roots are the records (in input
order) whose resolved parent reference is falsy; each root is the map
node stored under its key. -/
def buildBlockTree (flats : List FlatBlock) : List BuiltNode :=
  (flats.filter (fun b => !jsTruthy (parentOf b))).map
    (fun b => buildNode flats flats.length (keyOf b))

mutual
/-- Forget the `parentBlockId`/`sortOrder` decoration of a rebuilt
node, keeping carried data and child structure. -/
def stripNode : BuiltNode → BlockNode
  | .node d cs => .node d.data (stripForest cs)

def stripForest : List BuiltNode → List BlockNode
  | [] => []
  | c :: cs => stripNode c :: stripForest cs
end

mutual
/-- Whether a rebuilt tree contains a node whose record equals `r`. -/
def containsRec (r : FlatBlock) : BuiltNode → Bool
  | .node d cs => d = r || containsForest r cs

def containsForest (r : FlatBlock) : List BuiltNode → Bool
  | [] => false
  | c :: cs => containsRec r c || containsForest r cs
end

mutual
/-- All carried data of a forest in pre-order (each node before its
children, children in list order). -/
def preorderData : List BlockNode → List BlockData
  | [] => []
  | c :: cs => preorderDataNode c ++ preorderData cs

def preorderDataNode : BlockNode → List BlockData
  | .node d cs => d :: preorderData cs
end

mutual
/-- Height of a node (≥ 1); proof-level measure for the build fuel. -/
def heightNode : BlockNode → Nat
  | .node _ cs => heightForest cs + 1

def heightForest : List BlockNode → Nat
  | [] => 0
  | c :: cs => max (heightNode c) (heightForest cs)
end

mutual
def decEqBlockNode : (a b : BlockNode) → Decidable (a = b)
  | .node d cs, .node e ds =>
    match decEq d e, decEqBlockForest cs ds with
    | isTrue h1, isTrue h2 => isTrue (by rw [h1, h2])
    | isFalse h1, _ => isFalse (fun hh => h1 (by cases hh; rfl))
    | _, isFalse h2 => isFalse (fun hh => h2 (by cases hh; rfl))

def decEqBlockForest : (a b : List BlockNode) → Decidable (a = b)
  | [], [] => isTrue rfl
  | [], _ :: _ => isFalse (fun hh => List.noConfusion hh)
  | _ :: _, [] => isFalse (fun hh => List.noConfusion hh)
  | c :: cs, d :: ds =>
    match decEqBlockNode c d, decEqBlockForest cs ds with
    | isTrue h1, isTrue h2 => isTrue (by rw [h1, h2])
    | isFalse h1, _ => isFalse (fun hh => h1 (by cases hh; rfl))
    | _, isFalse h2 => isFalse (fun hh => h2 (by cases hh; rfl))
end

instance : DecidableEq BlockNode := decEqBlockNode

mutual
/-- All nodes of a forest in pre-order. -/
def nodesOfForest : List BlockNode → List BlockNode
  | [] => []
  | c :: cs => nodesOfNode c ++ nodesOfForest cs

def nodesOfNode : BlockNode → List BlockNode
  | .node d cs => .node d cs :: nodesOfForest cs
end

/-- All node `id` fields of a forest, in pre-order. -/
def forestIds (f : List BlockNode) : List JStr :=
  (nodesOfForest f).map (fun n => n.data.id)

/-- Every node of the forest has a truthy `id`. -/
def AllIdsTruthy (f : List BlockNode) : Prop :=
  ∀ n ∈ nodesOfForest f, jsTruthy n.data.id = true

/-- Every truthy legacy parent reference (`pp_parentblockid`) of a node
points at the `id` of some node of the forest. -/
def ParentRefsInside (f : List BlockNode) : Prop :=
  ∀ n ∈ nodesOfForest f,
    jsTruthy n.data.pp_parentblockid = true → n.data.pp_parentblockid ∈ forestIds f

/-- No root of the forest carries a truthy legacy parent reference. -/
def RootsLegacyFalsy (f : List BlockNode) : Prop :=
  ∀ r ∈ f, jsTruthy r.data.pp_parentblockid = false

/-- The sort-order-zeroed flat record emitted for data `d` under parent
reference `p` (the record `specFlatNode` lists first). -/
def specRec (d : BlockData) (p : JStr) : FlatBlock :=
  { data := d, parentBlockId := p, sortOrder := 0 }

mutual
/-- Proof-level restatement of `flattenBlockTree` with the sort-order
counter zeroed out: the rebuilt structure only depends on the flat list
through the sort-order-independent fields. -/
def specFlatNode : BlockNode → JStr → List FlatBlock
  | .node d cs, p => specRec d p :: specFlatForest cs d.id

def specFlatForest : List BlockNode → JStr → List FlatBlock
  | [], _ => []
  | c :: cs, p => specFlatNode c p ++ specFlatForest cs p
end

/-- Zero a flat record's sort order. -/
def dropSort (b : FlatBlock) : FlatBlock := { b with sortOrder := 0 }

/-- The five fixed padding scale classes the mapper can emit. -/
def paddingScaleClasses : List String :=
  ["tw-p-0", "tw-p-4", "tw-p-8", "tw-p-16", "tw-p-24"]

/-! ## Settings → classes / attributes mapper (`_settingsToClasses`,
`_settingsToAttributes`, `_settingsToTraits`) -/

/-- JS `a || d` where the result is used as a string (`d` a string
literal in the source). -/
def jsOrD (a : JStr) (d : String) : String :=
  match a with
  | some s => if s = "" then d else s
  | none => d

/-- The `paddingMap[v] || ''` lookup: fixed scale classes, empty string
for a value outside the map. -/
def paddingMapLookup (v : String) : String :=
  if v = "none" then "tw-p-0"
  else if v = "small" then "tw-p-4"
  else if v = "medium" then "tw-p-8"
  else if v = "large" then "tw-p-16"
  else if v = "xlarge" then "tw-p-24"
  else ""

/-- The `marginMap[v] || ''` lookup. -/
def marginMapLookup (v : String) : String :=
  if v = "none" then "tw-m-0"
  else if v = "small" then "tw-m-4"
  else if v = "medium" then "tw-m-8"
  else if v = "large" then "tw-m-16"
  else ""

/-- Classes pushed for `settings.backgroundColor` (guarded by JS
truthiness of the value). -/
def bgClassList (s : SettingsObj) : List String :=
  match objGet s "backgroundColor" with
  | none => []
  | some v =>
    if v = "" then []
    else if v = "transparent" then ["tw-bg-transparent"]
    else if v = "primary" then ["tw-bg-primary"]
    else ["tw-bg-" ++ (v ++ ("-" ++ jsOrD (objGet s "backgroundShade") "600"))]

/-- Classes pushed for `settings.color`. -/
def textColorClassList (s : SettingsObj) : List String :=
  match objGet s "color" with
  | none => []
  | some v =>
    if v = "" then []
    else if v = "white" then ["tw-text-white"]
    else ["tw-text-" ++ (v ++ ("-" ++ jsOrD (objGet s "colorShade") "900"))]

/-- Class pushed for `settings.padding` (possibly the empty string). -/
def paddingClassList (s : SettingsObj) : List String :=
  match objGet s "padding" with
  | none => []
  | some v => if v = "" then [] else [paddingMapLookup v]

/-- Class pushed for `settings.margin` (possibly the empty string). -/
def marginClassList (s : SettingsObj) : List String :=
  match objGet s "margin" with
  | none => []
  | some v => if v = "" then [] else [marginMapLookup v]

/-- Class pushed for `settings.align`. -/
def alignClassList (s : SettingsObj) : List String :=
  match objGet s "align" with
  | none => []
  | some v => if v = "" then [] else ["tw-text-" ++ v]

/-- Class pushed for `settings.fontSize`. -/
def fontSizeClassList (s : SettingsObj) : List String :=
  match objGet s "fontSize" with
  | none => []
  | some v => if v = "" then [] else ["tw-text-" ++ v]

/-- Class pushed for `settings.fontWeight`. -/
def fontWeightClassList (s : SettingsObj) : List String :=
  match objGet s "fontWeight" with
  | none => []
  | some v => if v = "" then [] else ["tw-font-" ++ v]

/-- Classes pushed for `settings.containerWidth` (each recognized value
pushes one space-joined bundle string; unknown values push nothing). -/
def containerClassList (s : SettingsObj) : List String :=
  match objGet s "containerWidth" with
  | none => []
  | some v =>
    if v = "" then []
    else if v = "container" then ["tw-container tw-mx-auto tw-px-4"]
    else if v = "narrow" then ["tw-max-w-4xl tw-mx-auto tw-px-4"]
    else if v = "wide" then ["tw-max-w-7xl tw-mx-auto tw-px-4"]
    else if v = "full" then ["tw-w-full"]
    else []

/-- `_settingsToClasses`: pushes in fixed key order (background, text
color, padding, margin, align, font size, font weight, container
width) and finally drops empty strings (`classes.filter(c => c)`). -/
def settingsToClasses (s : SettingsObj) : List String :=
  (bgClassList s ++ textColorClassList s ++ paddingClassList s ++ marginClassList s ++
      alignClassList s ++ fontSizeClassList s ++ fontWeightClassList s ++
      containerClassList s).filter (fun c => c ≠ "")

/-- Property read on a string-valued attribute object. -/
def attrGet (o : List (String × String)) (k : String) : JStr :=
  (o.find? (fun p => p.1 = k)).map (fun p => p.2)

/-- `_settingsToAttributes`: the joined class list (when non-empty),
`customClass` appended and trimmed, and `id` copied through. -/
def settingsToAttributes (s : SettingsObj) : SettingsObj :=
  let classes := settingsToClasses s
  let a1 : SettingsObj :=
    if classes.length > 0 then objSet [] "class" (String.intercalate " " classes) else []
  let a2 : SettingsObj :=
    match objGet s "customClass" with
    | some c =>
      if c = "" then a1
      else objSet a1 "class" ((jsOrD (objGet a1 "class") "" ++ " " ++ c).trim)
    | none => a1
  match objGet s "id" with
  | some i => if i = "" then a2 else objSet a2 "id" i
  | none => a2

/-- `_settingsToTraits`: `Object.entries(settings)` as name/value
pairs, in property order. -/
def settingsToTraits (s : SettingsObj) : List (String × String) := s

/-! ## Dataverse → GrapesJS (`dataverseToGrapesJS`,
`_parseDataverseBlock`, `_blockToGrapesComponent`)

`JSON.parse` is a platform builtin, not repository code: it is passed
in as a parameter `jsonParse : String → Option SettingsObj`, where
`none` models a thrown `SyntaxError`.  Stored settings are modelled as
string-valued maps (the shape the mapper interprets). -/

/-- A persisted `pp_block` row as returned by the Web API
(`_pp_versionid_value` named `versionId`). -/
structure DVBlockRow where
  pp_blockid : JStr
  versionId : String
  pp_parentblockid : JStr
  pp_name : JStr
  pp_type : String
  pp_blocktype : Int
  pp_order : Int
  pp_zone : JStr
  pp_data : JStr
  pp_isactive : Bool
  statecode : Int
deriving Repr, DecidableEq, Inhabited

/-- The parsed block produced by `_parseDataverseBlock`. -/
structure ParsedBlock where
  id : JStr
  name : JStr
  templateName : String
  blockType : Int
  sortOrder : Int
  zone : JStr
  parentBlockId : JStr
  settings : SettingsObj
  isActive : Bool
deriving Repr, DecidableEq, Inhabited

/-- The parsed record `_parseDataverseBlock` builds once the settings
text has been dealt with. -/
def parsedOf (b : DVBlockRow) (st : SettingsObj) : ParsedBlock :=
  { id := b.pp_blockid, name := b.pp_name, templateName := b.pp_type,
    blockType := b.pp_blocktype, sortOrder := b.pp_order, zone := b.pp_zone,
    parentBlockId := b.pp_parentblockid, settings := st, isActive := b.pp_isactive }

/-- `_parseDataverseBlock`: `pp_data ? JSON.parse(pp_data) : {}`.  The
`JSON.parse` call is not wrapped in a `try`/`catch`, so a parse failure
propagates as an exception (`Except.error`). -/
def parseDataverseBlock (jsonParse : String → Option SettingsObj) (b : DVBlockRow) :
    Except String ParsedBlock :=
  match b.pp_data with
  | none => .ok (parsedOf b [])
  | some s =>
    if s = "" then .ok (parsedOf b [])
    else
      match jsonParse s with
      | some st => .ok (parsedOf b st)
      | none => .error "SyntaxError: JSON.parse"

/-- A GrapesJS component descriptor as produced on load (attribute
values coerced to strings in the model; no claim depends on them). -/
inductive GrapesOut : Type where
  | comp (ctype : String) (attributes : SettingsObj) (traits : List (String × String))
      (content : JStr) (children : List GrapesOut)
deriving Repr, Inhabited

/-- Map node of `dataverseToGrapesJS`'s `blockMap` (keys are
`pp_blockid`, last write wins). -/
def dvMapNode (bs : List ParsedBlock) (k : JStr) : ParsedBlock :=
  ((bs.filter (fun b => b.id = k)).getLast?).getD default

/-- Records pushed into the children of the map node under key `k` in
`dataverseToGrapesJS`'s second pass (truthy `pp_parentblockid` equal to
`k`). -/
def dvChildRecs (bs : List ParsedBlock) (k : JStr) : List ParsedBlock :=
  bs.filter (fun b => jsTruthy b.parentBlockId && b.parentBlockId = k)

/-- Functional reading of `dataverseToGrapesJS`'s mutation-built
hierarchy, fuel-bounded exactly as `buildNode`. -/
inductive DVNode : Type where
  | node (data : ParsedBlock) (children : List DVNode)
deriving Repr, Inhabited

def dvBuildNode (bs : List ParsedBlock) : Nat → JStr → DVNode
  | 0, k => .node (dvMapNode bs k) []
  | fuel + 1, k =>
    .node (dvMapNode bs k) ((dvChildRecs bs k).map (fun b => dvBuildNode bs fuel b.id))

mutual
/-- `_blockToGrapesComponent`: type, bookkeeping attributes merged with
the mapped settings attributes, traits from settings, `text`/`content`
promotion (`text` wins), children converted recursively. -/
def blockToGrapesComponent : DVNode → GrapesOut
  | .node b cs =>
    let attrs0 : SettingsObj :=
      [("data-block-id", jsOrD b.id ""), ("data-template", b.templateName),
        ("data-block-type", toString b.blockType)]
    let attrs := objAssign attrs0 (settingsToAttributes b.settings)
    let content : JStr :=
      if jsTruthy (objGet b.settings "text") then objGet b.settings "text"
      else if jsTruthy (objGet b.settings "content") then objGet b.settings "content"
      else none
    .comp b.templateName attrs (settingsToTraits b.settings) content
      (blockChildrenToGrapes cs)

def blockChildrenToGrapes : List DVNode → List GrapesOut
  | [] => []
  | c :: cs => blockToGrapesComponent c :: blockChildrenToGrapes cs
end

/-- The first `forEach` pass of `dataverseToGrapesJS`: parse each row
in order; an exception thrown by `_parseDataverseBlock` propagates and
aborts the pass. -/
def parseAll (jsonParse : String → Option SettingsObj) :
    List DVBlockRow → Except String (List ParsedBlock)
  | [] => .ok []
  | r :: rest => do
    let x ← parseDataverseBlock jsonParse r
    let xs ← parseAll jsonParse rest
    return x :: xs

/-- `dataverseToGrapesJS`: parse every row (first pass — a parse
failure aborts the whole conversion), build the hierarchy, convert the
roots.  Fuel for the mutation-built hierarchy is the list length, which
suffices for acyclic parent links. -/
def dataverseToGrapesJS (jsonParse : String → Option SettingsObj)
    (rows : List DVBlockRow) : Except String (List GrapesOut) := do
  let parsed ← parseAll jsonParse rows
  let roots := parsed.filter (fun b => !jsTruthy b.parentBlockId)
  return roots.map (fun b => blockToGrapesComponent (dvBuildNode parsed parsed.length b.id))

/-! ## GrapesJS → Dataverse (`grapesJSToDataverse`,
`_grapesComponentToBlock`, `_getBlockTypeFromTemplate`)

`_generateGUID` is randomized; it is modelled as a parameter
`guid : Nat → String` indexed by the (unique) sort order of the block
being created.  Trait values are modelled as string-or-nullish. -/

/-- A live editor component as read back for saving. -/
inductive GComponent : Type where
  | comp (ctype : String) (cname : JStr) (attributes : List (String × String))
      (traits : List (String × JStr)) (components : List GComponent)
deriving Repr, Inhabited

def GComponent.ctype : GComponent → String
  | .comp t _ _ _ _ => t

def GComponent.cname : GComponent → JStr
  | .comp _ n _ _ _ => n

def GComponent.attributes : GComponent → List (String × String)
  | .comp _ _ a _ _ => a

def GComponent.traits : GComponent → List (String × JStr)
  | .comp _ _ _ tr _ => tr

def GComponent.components : GComponent → List GComponent
  | .comp _ _ _ _ cs => cs

/-- `_getBlockTypeFromTemplate`: fixed prefix tests, default 2. -/
def getBlockTypeFromTemplate (templateName : String) : Int :=
  if templateName.startsWith "pp_layout" then 1
  else if templateName.startsWith "pp_content" then 2
  else if templateName.startsWith "pp_media" then 3
  else if templateName.startsWith "pp_nav" then 4
  else if templateName.startsWith "pp_dv" then 5
  else 2

/-- The block record built by `_grapesComponentToBlock`. -/
structure SaveBlock where
  id : String
  pageversionId : String
  parentBlockId : JStr
  name : String
  templateName : String
  blockType : Int
  sortOrder : Int
  zone : JStr
  settings : SettingsObj
  isActive : Bool
deriving Repr, DecidableEq, Inhabited

/-- `_grapesComponentToBlock`: settings from defined, non-null,
non-empty trait values; then any `data-settings` attribute parsed and
merged over them with `Object.assign` (parse failure is caught and
ignored); id from `data-block-id` or a generated GUID. -/
def grapesComponentToBlock (jsonParse : String → Option SettingsObj)
    (guid : Nat → String) (c : GComponent) (versionId : String)
    (parentBlockId : JStr) (sortOrder : Nat) : SaveBlock :=
  let settings0 : SettingsObj :=
    c.traits.foldl
      (fun acc p =>
        match p.2 with
        | some v => if v = "" then acc else objSet acc p.1 v
        | none => acc) []
  let settings : SettingsObj :=
    match attrGet c.attributes "data-settings" with
    | some s =>
      if s = "" then settings0
      else
        match jsonParse s with
        | some attrSettings => objAssign settings0 attrSettings
        | none => settings0
    | none => settings0
  let blockId : String :=
    match attrGet c.attributes "data-block-id" with
    | some s => if s = "" then guid sortOrder else s
    | none => guid sortOrder
  { id := blockId, pageversionId := versionId, parentBlockId := parentBlockId,
    name := jsOrD c.cname c.ctype, templateName := c.ctype,
    blockType := getBlockTypeFromTemplate c.ctype,
    sortOrder := Int.ofNat sortOrder,
    zone := jsOr (attrGet c.attributes "data-zone") none,
    settings := settings, isActive := true }

mutual
/-- `grapesJSToDataverse`'s `processComponent`: emit the block, then
the children with the emitted block's id as parent, threading the
shared sort-order counter. -/
def processComponent (jsonParse : String → Option SettingsObj) (guid : Nat → String)
    (versionId : String) : GComponent → JStr → Nat → List SaveBlock × Nat
  | c@(.comp _ _ _ _ cs), parentId, n =>
    let blk := grapesComponentToBlock jsonParse guid c versionId parentId n
    let rest := processComponentList jsonParse guid versionId cs (some blk.id) (n + 1)
    (blk :: rest.1, rest.2)

def processComponentList (jsonParse : String → Option SettingsObj) (guid : Nat → String)
    (versionId : String) : List GComponent → JStr → Nat → List SaveBlock × Nat
  | [], _, n => ([], n)
  | c :: cs, p, n =>
    let r1 := processComponent jsonParse guid versionId c p n
    let r2 := processComponentList jsonParse guid versionId cs p r1.2
    (r1.1 ++ r2.1, r2.2)
end

/-- `grapesJSToDataverse`: flatten the component forest into blocks. -/
def grapesJSToDataverse (jsonParse : String → Option SettingsObj) (guid : Nat → String)
    (components : List GComponent) (versionId : String) : List SaveBlock :=
  (processComponentList jsonParse guid versionId components none 0).1

/-! ## Lifecycle client (`ppbuilder.apiclient.js`, `ppbuilder.pagemanager.js`)

The Dataverse backend is modelled as three row tables plus a fresh-id
counter; the OData `$filter`/`$orderby`/`$top` strings the client sends
are interpreted over those tables (modelled from the spec's protocol
description: filtering, stable ordering by the named columns, then
`top`).  `JSON.stringify` is, like `JSON.parse`, a platform builtin
passed in as a parameter. -/

/-- Stable insertion sort; models the backend's `$orderby` and the
client-side `Array.prototype.sort` (stable per ES2019). -/
def insertLe {α : Type} (le : α → α → Bool) (x : α) : List α → List α
  | [] => [x]
  | y :: ys => if le y x then y :: insertLe le x ys else x :: y :: ys

def sortByLe {α : Type} (le : α → α → Bool) (l : List α) : List α :=
  l.foldl (fun acc x => insertLe le x acc) []

/-- A `pp_page` row. -/
structure PageRow where
  pp_pageid : String
  pp_name : String
  pp_slug : String
  pp_title : String
  pp_metadescription : String
  pp_isactive : Bool
  statecode : Int
deriving Repr, DecidableEq, Inhabited

/-- A `pp_version` row (`_pp_pageid_value` named `pageId`).
`pp_status`: 1 = Draft, 2 = Published, 3 = Archived. -/
structure VersionRow where
  pp_versionid : String
  pageId : String
  pp_name : String
  pp_status : Int
  pp_ispublished : Bool
  pp_settings : JStr
  pp_versionnumber : Int
  pp_publishedon : JStr
  statecode : Int
deriving Repr, DecidableEq, Inhabited

/-- The modelled backend state. -/
structure DB where
  pages : List PageRow
  versions : List VersionRow
  blocks : List DVBlockRow
  nextId : Nat
deriving Repr, Inhabited

/-- Server-assigned identifier of the `n`-th created row. -/
def genId (n : Nat) : String := "gen-" ++ toString n

/-- `getPageBySlug`: filter `pp_slug eq '{slug}' and pp_isactive eq
true and statecode eq 0`, orderby `pp_name`, top 1. -/
def getPageBySlug (db : DB) (slug : String) : Option PageRow :=
  (sortByLe (fun a b => a.pp_name ≤ b.pp_name)
      (db.pages.filter (fun p => p.pp_slug = slug && p.pp_isactive && p.statecode = 0))).head?

/-- The rows matched by `getPageVersions`' base filter
(`_pp_pageid_value eq {pageId} and statecode eq 0`). -/
def versionRowsOf (db : DB) (pageId : String) : List VersionRow :=
  db.versions.filter (fun v => v.pageId = pageId && v.statecode = 0)

/-- `getPageVersions` with the default orderby `pp_versionnumber desc`
(as used by the page manager's delete workflow). -/
def getPageVersions (db : DB) (pageId : String) : List VersionRow :=
  sortByLe (fun a b => b.pp_versionnumber ≤ a.pp_versionnumber) (versionRowsOf db pageId)

/-- `getActivePageVersion`: orderby `pp_status desc,
pp_versionnumber desc`, top 1 over the base filter. -/
def getActivePageVersion (db : DB) (pageId : String) : Option VersionRow :=
  (sortByLe
      (fun a b =>
        b.pp_status < a.pp_status ||
          (b.pp_status = a.pp_status && b.pp_versionnumber ≤ a.pp_versionnumber))
      (versionRowsOf db pageId)).head?

/-- `getPublishedPageVersion`: filter adds `pp_status eq 2`, orderby
`pp_versionnumber desc`, top 1. -/
def getPublishedPageVersion (db : DB) (pageId : String) : Option VersionRow :=
  (sortByLe (fun a b => b.pp_versionnumber ≤ a.pp_versionnumber)
      (db.versions.filter
        (fun v => v.pageId = pageId && v.pp_status = 2 && v.statecode = 0))).head?

/-- The rows matched by `getBlocks`' filter (`_pp_versionid_value eq
{versionId} and pp_isactive eq true and statecode eq 0`). -/
def blockRowsOf (db : DB) (versionId : String) : List DVBlockRow :=
  db.blocks.filter (fun b => b.versionId = versionId && b.pp_isactive && b.statecode = 0)

/-- `getBlocks`: the version's active block rows, orderby `pp_order`. -/
def getBlocks (db : DB) (versionId : String) : List DVBlockRow :=
  sortByLe (fun a b => a.pp_order ≤ b.pp_order) (blockRowsOf db versionId)

/-- `GET pp_versions({id})`. -/
def findVersion (db : DB) (id : String) : Option VersionRow :=
  db.versions.find? (fun v => v.pp_versionid = id)

/-- Input of `createPageVersion`. -/
structure VersionInput where
  pageId : String
  name : String
  versionNumber : Int
  status : Int
  settings : Option SettingsObj
deriving Inhabited

/-- `createPageVersion`: `pp_status` defaults to 1 when the given
status is falsy, `pp_ispublished` is `status === 2`, `pp_publishedon`
is stamped only when publishing; the backend assigns a fresh id and
returns the row. -/
def createPageVersion (stringify : SettingsObj → String) (db : DB) (vd : VersionInput)
    (now : String) : VersionRow × DB :=
  let row : VersionRow :=
    { pp_versionid := genId db.nextId, pageId := vd.pageId, pp_name := vd.name,
      pp_status := if vd.status = 0 then 1 else vd.status,
      pp_ispublished := vd.status == 2,
      pp_settings := vd.settings.map stringify,
      pp_versionnumber := vd.versionNumber,
      pp_publishedon := if vd.status = 2 then some now else none,
      statecode := 0 }
  (row, { db with versions := db.versions ++ [row], nextId := db.nextId + 1 })

/-- Updates accepted by `updatePageVersion`. -/
structure VersionUpdate where
  name : Option String
  status : Option Int
  settings : Option SettingsObj
deriving Inhabited

/-- One row under `updatePageVersion`'s PATCH payload: a truthy `name`
replaces the name; a defined `status` replaces the status, recomputes
`pp_ispublished` and stamps `pp_publishedon` when the new status is
Published; truthy `settings` are re-serialized. -/
def applyVersionUpdate (stringify : SettingsObj → String) (now : String) (u : VersionUpdate)
    (v : VersionRow) : VersionRow :=
  let v1 := match u.name with
    | some n => if n = "" then v else { v with pp_name := n }
    | none => v
  let v2 := match u.status with
    | some s =>
      { v1 with
        pp_status := s, pp_ispublished := (s == 2),
        pp_publishedon := if s = 2 then some now else v1.pp_publishedon }
    | none => v1
  match u.settings with
  | some o => { v2 with pp_settings := some (stringify o) }
  | none => v2

/-- `updatePageVersion versionId updates`. -/
def updatePageVersion (stringify : SettingsObj → String) (db : DB) (versionId : String)
    (u : VersionUpdate) (now : String) : DB :=
  { db with
    versions := db.versions.map
      (fun v => if v.pp_versionid = versionId then applyVersionUpdate stringify now u v else v) }

/-- Input of `createBlock` (`blockData`).  The payload sent to the
backend carries no block id: the client-side `id` field is ignored and
the server assigns a fresh `pp_blockid`. -/
structure BlockInput where
  id : JStr
  pageversionId : String
  parentBlockId : JStr
  name : JStr
  templateName : String
  blockType : Int
  sortOrder : Int
  zone : JStr
  settings : Option SettingsObj
  isActive : Option Bool
deriving Inhabited

/-- `createBlock`: binds the block to `blockData.pageversionId`, adds
the parent bind only for a truthy `parentBlockId`, `pp_zone` only for a
truthy zone, serializes settings (defaulting to `"{}"`), and returns
the created row. -/
def createBlock (stringify : SettingsObj → String) (db : DB) (bd : BlockInput) :
    DVBlockRow × DB :=
  let row : DVBlockRow :=
    { pp_blockid := some (genId db.nextId), versionId := bd.pageversionId,
      pp_parentblockid := if jsTruthy bd.parentBlockId then bd.parentBlockId else none,
      pp_name := bd.name, pp_type := bd.templateName, pp_blocktype := bd.blockType,
      pp_order := bd.sortOrder,
      pp_zone := if jsTruthy bd.zone then bd.zone else none,
      pp_data := some (match bd.settings with | some o => stringify o | none => "{}"),
      pp_isactive := bd.isActive.getD true, statecode := 0 }
  (row, { db with blocks := db.blocks ++ [row], nextId := db.nextId + 1 })

/-- Requests whose ordering the claims talk about. -/
inductive Req : Type where
  | delBlock (id : JStr)
  | delVersion (id : String)
  | delPage (id : String)
deriving Repr, DecidableEq

def Req.isDelBlock : Req → Bool
  | .delBlock _ => true
  | _ => false

def Req.isDelVersion : Req → Bool
  | .delVersion _ => true
  | _ => false

def Req.isDelPage : Req → Bool
  | .delPage _ => true
  | _ => false

/-- `DELETE pp_blocks({id})`. -/
def deleteBlockRow (db : DB) (id : JStr) : DB :=
  { db with blocks := db.blocks.filter (fun b => b.pp_blockid ≠ id) }

/-- `deleteAllBlocks`: fetch the version's blocks, sort them by
descending `pp_order` client-side, delete one by one; also returns the
issued delete requests in order. -/
def deleteAllBlocks (db : DB) (versionId : String) : DB × List Req :=
  let sorted := sortByLe (fun a b => b.pp_order ≤ a.pp_order) (getBlocks db versionId)
  (sorted.foldl (fun acc b => deleteBlockRow acc b.pp_blockid) db,
    sorted.map (fun b => .delBlock b.pp_blockid))

/-- `DELETE pp_versions({id})`. -/
def deleteVersionRow (db : DB) (id : String) : DB :=
  { db with versions := db.versions.filter (fun v => v.pp_versionid ≠ id) }

/-- `DELETE pp_pages({id})`. -/
def deletePageRow (db : DB) (id : String) : DB :=
  { db with pages := db.pages.filter (fun p => p.pp_pageid ≠ id) }

/-- The page manager's `deletePage` workflow: for every version of the
page (fetched once, newest first), delete all its blocks then the
version; finally delete the page.  Returns the final state and the
trace of delete requests. -/
def pmDeletePage (db : DB) (pageId : String) : DB × List Req :=
  let step :=
    (getPageVersions db pageId).foldl
      (fun (acc : DB × List Req) v =>
        let r1 := deleteAllBlocks acc.1 v.pp_versionid
        (deleteVersionRow r1.1 v.pp_versionid, acc.2 ++ r1.2 ++ [.delVersion v.pp_versionid]))
      (db, [])
  (deletePageRow step.1 pageId, step.2 ++ [.delPage pageId])

/-- Result shape of a successful `loadPageForEditing` (never produced:
see `loadPageForEditing`). -/
structure LoadResult where
  page : PageRow
  version : VersionRow
  versionSettings : SettingsObj
  blocks : List (DVBlockRow × SettingsObj)
deriving Inhabited

/-- `loadPageForEditing`.  After the page is resolved, the source calls
`getActivePageVersion(page.pp_pageid)` without `this.`
(apiclient line 381); no binding of that name exists in the module
scope, so evaluation throws a `ReferenceError` before the version is
resolved — the remaining steps (fetch blocks, parse settings) are
unreachable. -/
def loadPageForEditing (db : DB) (slug : String) : Except String LoadResult :=
  match getPageBySlug db slug with
  | none => .error ("Page not found: " ++ slug)
  | some _page => .error "ReferenceError: getActivePageVersion is not defined"

/-- `saveDraft`: delete every existing block of the version, then
create each given block with `pageversionId` overridden to the target
version (`{...block, pageversionId: versionId}`). -/
def saveDraftInput (versionId : String) (b : SaveBlock) : BlockInput :=
  { id := some b.id, pageversionId := versionId, parentBlockId := b.parentBlockId,
    name := some b.name, templateName := b.templateName, blockType := b.blockType,
    sortOrder := b.sortOrder, zone := b.zone, settings := some b.settings,
    isActive := some b.isActive }

def saveDraft (stringify : SettingsObj → String) (db : DB) (versionId : String)
    (blocks : List SaveBlock) : DB :=
  let db1 := (deleteAllBlocks db versionId).1
  blocks.foldl (fun acc b => (createBlock stringify acc (saveDraftInput versionId b)).2) db1

/-- `pp_data ? JSON.parse(pp_data) : {}` with the exception behaviour
of the platform parser. -/
def parseJsOr (jsonParse : String → Option SettingsObj) (s : JStr) :
    Except String SettingsObj :=
  match s with
  | none => .ok []
  | some t =>
    if t = "" then .ok []
    else
      match jsonParse t with
      | some o => .ok o
      | none => .error "SyntaxError: JSON.parse"

/-- `blockIdMap[oldId]`: the new id recorded for an old id, `none`
(undefined) when absent. -/
def lookupId (m : List (JStr × JStr)) (k : JStr) : JStr :=
  ((m.find? (fun p => p.1 = k)).map (fun p => p.2)).getD none

/-- One step of `publishPage`'s clone loops: parse the draft block's
stored settings, look the (possibly absent) parent up in the id map
when cloning child blocks, create the clone under the new version, and
record old id → new id. -/
def cloneOne (jsonParse : String → Option SettingsObj) (stringify : SettingsObj → String)
    (newVid : String) (withRemap : Bool) (acc : DB × List (JStr × JStr))
    (old : DVBlockRow) : Except String (DB × List (JStr × JStr)) := do
  let stg ← parseJsOr jsonParse old.pp_data
  let parent : JStr := if withRemap then lookupId acc.2 old.pp_parentblockid else none
  let r := createBlock stringify acc.1
    { id := none, pageversionId := newVid, parentBlockId := parent, name := old.pp_name,
      templateName := old.pp_type, blockType := old.pp_blocktype, sortOrder := old.pp_order,
      zone := old.pp_zone, settings := some stg, isActive := some old.pp_isactive }
  return (r.2, acc.2 ++ [(old.pp_blockid, r.1.pp_blockid)])

/-- The settings object a successful `parseJsOr` yields (meaningful
under the hypothesis that the parse succeeds). -/
def parseOrEmpty (jsonParse : String → Option SettingsObj) (s : JStr) : SettingsObj :=
  match parseJsOr jsonParse s with
  | .ok o => o
  | .error _ => []

/-- The id table `publishPage`'s clone loops build: old block id → the
server-assigned id of the clone, numbered consecutively from `n`. -/
def pubIdMapFrom (n : Nat) : List DVBlockRow → List (JStr × JStr)
  | [] => []
  | b :: bs => (b.pp_blockid, some (genId n)) :: pubIdMapFrom (n + 1) bs

/-- The row `createBlock` appends for one cloned draft block. -/
def cloneRowOf (jsonParse : String → Option SettingsObj) (stringify : SettingsObj → String)
    (newVid : String) (parent : JStr) (n : Nat) (old : DVBlockRow) : DVBlockRow :=
  { pp_blockid := some (genId n), versionId := newVid,
    pp_parentblockid := if jsTruthy parent then parent else none,
    pp_name := old.pp_name, pp_type := old.pp_type, pp_blocktype := old.pp_blocktype,
    pp_order := old.pp_order,
    pp_zone := if jsTruthy old.pp_zone then old.pp_zone else none,
    pp_data := some (stringify (parseOrEmpty jsonParse old.pp_data)),
    pp_isactive := old.pp_isactive, statecode := 0 }

/-- Explicit form of the rows one clone loop appends, threading the id
table exactly as the loop does. -/
def cloneRowsFrom (jsonParse : String → Option SettingsObj) (stringify : SettingsObj → String)
    (newVid : String) (withRemap : Bool) :
    List (JStr × JStr) → Nat → List DVBlockRow → List DVBlockRow
  | _, _, [] => []
  | m, n, b :: bs =>
    cloneRowOf jsonParse stringify newVid
        (if withRemap then lookupId m b.pp_parentblockid else none) n b
      :: cloneRowsFrom jsonParse stringify newVid withRemap
        (m ++ [(b.pp_blockid, some (genId n))]) (n + 1) bs

/-- The per-block content the publish clone copies verbatim: name,
template, numeric block type, sort order, active flag. -/
def blockContent (r : DVBlockRow) : JStr × String × Int × Int × Bool :=
  (r.pp_name, r.pp_type, r.pp_blocktype, r.pp_order, r.pp_isactive)

/-- The root-level draft blocks `publishPage`'s first clone pass
iterates over (`draftBlocks.filter(b => !b.pp_parentblockid)`). -/
def draftRootsOf (db : DB) (vid : String) : List DVBlockRow :=
  (getBlocks db vid).filter (fun b => !jsTruthy b.pp_parentblockid)

/-- The child draft blocks `publishPage`'s second clone pass iterates
over (`draftBlocks.filter(b => b.pp_parentblockid)`). -/
def draftChildrenOf (db : DB) (vid : String) : List DVBlockRow :=
  (getBlocks db vid).filter (fun b => jsTruthy b.pp_parentblockid)

/-- The result of `updatePageVersion(id, {status: 3})`: status set to
Archived, the published flag recomputed, the publish timestamp kept. -/
def archiveRow (v : VersionRow) : VersionRow :=
  { v with pp_status := 3, pp_ispublished := false }

/-- `publishPage` after the fallible reads (draft fetch, version
settings parse): archive the currently Published version (if any),
create the new Published version row, then clone all draft blocks into
it — first the root-level blocks, then the child blocks with parents
remapped through the id table built so far. -/
def publishClone (jsonParse : String → Option SettingsObj) (stringify : SettingsObj → String)
    (db : DB) (pageId draftVersionId now : String) (draft : VersionRow) (vs : SettingsObj) :
    Except String (DB × String) := do
  let db1 := match getPublishedPageVersion db pageId with
    | some e => updatePageVersion stringify db e.pp_versionid ⟨none, some 3, none⟩ now
    | none => db
  let cv := createPageVersion stringify db1
    ⟨pageId, "v" ++ toString draft.pp_versionnumber ++ " - Published",
      draft.pp_versionnumber, 2, some vs⟩ now
  let r1 ← (draftRootsOf db draftVersionId).foldlM
    (cloneOne jsonParse stringify cv.1.pp_versionid false) (cv.2, ([] : List (JStr × JStr)))
  let r2 ← (draftChildrenOf db draftVersionId).foldlM
    (cloneOne jsonParse stringify cv.1.pp_versionid true) r1
  return (r2.1, cv.1.pp_versionid)

/-- `publishPage` (full-clone variant): fetch the draft version, parse
its stored settings, then archive/create/clone via `publishClone`.
Returns the final state and the new version's id; on any failure the
error propagates (the model returns no intermediate state for failed
runs — the claims verified here concern successful completion only). -/
def publishPage (jsonParse : String → Option SettingsObj) (stringify : SettingsObj → String)
    (db : DB) (pageId draftVersionId : String) (now : String) :
    Except String (DB × String) := do
  let draft ←
    match findVersion db draftVersionId with
    | some v => Except.ok v
    | none => Except.error "HTTP 404: Not Found"
  let vs ← parseJsOr jsonParse draft.pp_settings
  publishClone jsonParse stringify db pageId draftVersionId now draft vs

/-- The version table state step 1 of `publishPage` leaves: the
currently Published version (if any) archived via
`updatePageVersion(existingPublished.pp_versionid, { status: 3 })`. -/
def pubBaseDB (stringify : SettingsObj → String) (db : DB) (pageId now : String) : DB :=
  match getPublishedPageVersion db pageId with
  | some e => updatePageVersion stringify db e.pp_versionid ⟨none, some 3, none⟩ now
  | none => db

/-- Step 2 of `publishPage`: the new Published version row created by
`createPageVersion`, together with the state after its creation. -/
def pubCV (stringify : SettingsObj → String) (db : DB) (pageId now : String)
    (draft : VersionRow) (vs : SettingsObj) : VersionRow × DB :=
  createPageVersion stringify (pubBaseDB stringify db pageId now)
    ⟨pageId, "v" ++ toString draft.pp_versionnumber ++ " - Published",
      draft.pp_versionnumber, 2, some vs⟩ now

/-! ## Concrete instances used by witnesses and counterexamples -/

def mkData (i : String) : BlockData :=
  { id := some i, pp_blockid := none, pp_parentblockid := none, payload := [] }

def mkLeaf (i : String) : BlockNode := .node (mkData i) []

/-- The spec's sort-order example: roots `[B, A, C]` with `A` having
children `[X, Y]`. -/
def exampleForest : List BlockNode :=
  [mkLeaf "B", BlockNode.node (mkData "A") [mkLeaf "X", mkLeaf "Y"], mkLeaf "C"]

/-- Two roots with distinct truthy ids; the second carries a stale
truthy legacy parent reference to the first (a parent inside the
forest). -/
def staleData : BlockData := { mkData "b" with pp_parentblockid := some "a" }

def staleForest : List BlockNode := [mkLeaf "a", BlockNode.node staleData []]

/-- A parentless record sharing its key with `dupOrphan`. -/
def dupRoot : FlatBlock := { data := mkData "k", parentBlockId := none, sortOrder := 0 }

/-- A record with a truthy parent reference absent from the list's
identifiers, sharing its key with `dupRoot`. -/
def orphanData : BlockData := { mkData "k" with payload := [("tag", "orphan")] }

def dupOrphan : FlatBlock :=
  { data := orphanData, parentBlockId := some "missing", sortOrder := 1 }

/-- An orphan record with a key distinct from every other record's. -/
def soloOrphan : FlatBlock :=
  { data := mkData "j", parentBlockId := some "missing", sortOrder := 1 }

def examplePage : PageRow :=
  { pp_pageid := "p1", pp_name := "About", pp_slug := "about-us", pp_title := "About Us",
    pp_metadescription := "", pp_isactive := true, statecode := 0 }

def exampleDraft : VersionRow :=
  { pp_versionid := "v1", pageId := "p1", pp_name := "v1.0 - Draft", pp_status := 1,
    pp_ispublished := false, pp_settings := none, pp_versionnumber := 1,
    pp_publishedon := none, statecode := 0 }

def examplePublished : VersionRow :=
  { pp_versionid := "vp", pageId := "p1", pp_name := "v0 - Published", pp_status := 2,
    pp_ispublished := true, pp_settings := none, pp_versionnumber := 0,
    pp_publishedon := some "t0", statecode := 0 }

def exampleBlockRow (bid vid : String) (ord : Int) : DVBlockRow :=
  { pp_blockid := some bid, versionId := vid, pp_parentblockid := none,
    pp_name := some ("blk-" ++ bid), pp_type := "pp_content_text", pp_blocktype := 2,
    pp_order := ord, pp_zone := none, pp_data := some "{}", pp_isactive := true,
    statecode := 0 }

def exampleDB : DB :=
  { pages := [examplePage], versions := [exampleDraft],
    blocks := [exampleBlockRow "b1" "v1" 0], nextId := 0 }

def versionTwo : VersionRow :=
  { exampleDraft with pp_versionid := "v2", pp_versionnumber := 2 }

/-- A page with exactly 2 versions, each with exactly 3 active blocks. -/
def cascadeDB : DB :=
  { pages := [examplePage], versions := [exampleDraft, versionTwo],
    blocks := [exampleBlockRow "b1" "v1" 0, exampleBlockRow "b2" "v1" 1,
      exampleBlockRow "b3" "v1" 2, exampleBlockRow "b4" "v2" 0,
      exampleBlockRow "b5" "v2" 1, exampleBlockRow "b6" "v2" 2],
    nextId := 0 }

/-- A draft with a root block and one child block, plus a previously
Published version row. -/
def publishDB : DB :=
  { pages := [examplePage], versions := [exampleDraft, examplePublished],
    blocks := [exampleBlockRow "b1" "v1" 0,
      { exampleBlockRow "b2" "v1" 1 with pp_parentblockid := some "b1" }],
    nextId := 0 }

/-- A stored block whose serialized settings text is not valid JSON
(under any parser: `failParse`). -/
def badDataRow : DVBlockRow := { exampleBlockRow "b9" "v1" 0 with pp_data := some "\x7b" }

/-- A parser that fails on every input: models `JSON.parse` applied to
text that is not valid JSON. -/
def failParse : String → Option SettingsObj := fun _ => none

/-- A parser mapping the marker text `"DS"` to a settings object that
binds `"k"`; models `JSON.parse` of a `data-settings` attribute. -/
def dsParse : String → Option SettingsObj :=
  fun s => if s = "DS" then some [("k", "attrval")] else none

def exampleStringify : SettingsObj → String := fun _ => "{}"

/-- A parser that accepts every input; models `JSON.parse` applied to
well-formed stored settings. -/
def okParse : String → Option SettingsObj := fun _ => some []

def exampleGuid : Nat → String := fun n => "guid-" ++ toString n

/-- A component whose traits and `data-settings` attribute both define
the key `"k"`. -/
def exampleComponent : GComponent :=
  .comp "pp_content_text" (some "Text") [("data-settings", "DS")] [("k", some "traitval")] []

/-! # Theorems -/

/-! ## C3: the load-for-editing workflow -/

/-- C3: the claim describes `loadPageForEditing`'s intended pipeline
(resolve page by slug, resolve the active version with Published
before Draft broken by recency, fetch and parse blocks).  The code
cannot perform it: after the page is resolved, the unqualified call
`getActivePageVersion(page.pp_pageid)` (missing `this.`) throws a
`ReferenceError`, so the workflow fails on every input whose page
lookup succeeds — here a database that contains the page `about-us`
together with a draft version and a block. -/
theorem C3_load_for_editing_always_fails :
    (getPageBySlug exampleDB "about-us") = some examplePage ∧
    loadPageForEditing exampleDB "about-us" =
      Except.error "ReferenceError: getActivePageVersion is not defined" ∧
    ∀ (db : DB) (slug : String), ∀ r : LoadResult, loadPageForEditing db slug ≠ Except.ok r := by
  refine ⟨rfl, rfl, ?_⟩
  intro db slug r h
  unfold loadPageForEditing at h
  cases hp : getPageBySlug db slug <;> rw [hp] at h <;> cases h

/-! ## C10: saveDraft binds every created block to the target version -/

theorem createFold_blocks (stringify : SettingsObj → String) (vid : String) :
    ∀ (blocks : List SaveBlock) (db0 : DB),
      ∃ created : List DVBlockRow,
        (blocks.foldl (fun acc b => (createBlock stringify acc (saveDraftInput vid b)).2)
              db0).blocks
            = db0.blocks ++ created ∧
          created.length = blocks.length ∧ ∀ r ∈ created, r.versionId = vid := by
  intro blocks
  induction blocks with
  | nil => intro db0; exact ⟨[], by simp, rfl, by simp⟩
  | cons b bs ih =>
    intro db0
    obtain ⟨cr, h1, h2, h3⟩ := ih (createBlock stringify db0 (saveDraftInput vid b)).2
    refine ⟨(createBlock stringify db0 (saveDraftInput vid b)).1 :: cr, ?_, ?_, ?_⟩
    · rw [List.foldl_cons, h1]
      simp [createBlock]
    · simpa using h2
    · intro r hr
      rcases List.mem_cons.mp hr with h | h
      · subst h; simp [createBlock, saveDraftInput]
      · exact h3 r h

/-- C10: every block row created by `saveDraft` carries the target
version id passed to `saveDraft`, regardless of the `pageversionId`
values on the input blocks (which the workflow overrides); the
workflow adds no other rows. -/
theorem C10_saveDraft_binds_target_version (stringify : SettingsObj → String) (db : DB)
    (versionId : String) (blocks : List SaveBlock) :
    ∃ created : List DVBlockRow,
      (saveDraft stringify db versionId blocks).blocks
          = ((deleteAllBlocks db versionId).1).blocks ++ created ∧
        created.length = blocks.length ∧ ∀ r ∈ created, r.versionId = versionId := by
  unfold saveDraft
  exact createFold_blocks stringify versionId blocks (deleteAllBlocks db versionId).1

/-! ## C9: attribute-sourced settings win over trait-sourced settings -/

theorem find_map_update_self (k v : String) :
    ∀ o : SettingsObj,
      (o.map (fun p => if p.1 = k then (k, v) else p)).find? (fun p => p.1 = k)
        = (o.find? (fun p => p.1 = k)).map (fun _ => (k, v)) := by
  intro o
  induction o with
  | nil => rfl
  | cons a rest ih =>
    by_cases h : a.1 = k
    · simp [h]
    · simp [h, ih]

theorem find_map_update_ne (k v k' : String) (hk : k' ≠ k) :
    ∀ o : SettingsObj,
      (o.map (fun p => if p.1 = k then (k, v) else p)).find? (fun p => p.1 = k')
        = o.find? (fun p => p.1 = k') := by
  intro o
  induction o with
  | nil => rfl
  | cons a rest ih =>
    rw [List.map_cons]
    by_cases h : a.1 = k
    · rw [if_pos h]
      rw [List.find?_cons_of_neg _ (by simp; exact fun hh => hk hh.symm)]
      rw [List.find?_cons_of_neg _ (by simp; exact fun hh => hk ((h.symm.trans hh).symm))]
      exact ih
    · rw [if_neg h]
      by_cases h2 : a.1 = k'
      · rw [List.find?_cons_of_pos _ (by simp [h2]), List.find?_cons_of_pos _ (by simp [h2])]
      · rw [List.find?_cons_of_neg _ (by simp [h2]), List.find?_cons_of_neg _ (by simp [h2])]
        exact ih

theorem objGet_objSet (o : SettingsObj) (k v k' : String) :
    objGet (objSet o k v) k' = if k' = k then some v else objGet o k' := by
  unfold objSet objGet
  by_cases hany : o.any (fun p => p.1 = k)
  · rw [if_pos hany]
    by_cases hk : k' = k
    · subst hk
      rw [find_map_update_self]
      obtain ⟨p, hp, hpk⟩ := List.any_eq_true.mp hany
      cases hfind : o.find? (fun p => decide (p.1 = k'))
      · exfalso
        have := List.find?_eq_none.mp hfind p hp
        simp at this
        simp at hpk
        exact this hpk
      · simp
    · rw [find_map_update_ne k v k' hk]
      rw [if_neg hk]
  · rw [if_neg hany]
    rw [List.find?_append]
    have hnone : o.find? (fun p => decide (p.1 = k)) = none := by
      rw [List.find?_eq_none]
      intro p hp hpk
      simp at hpk
      exact hany (List.any_eq_true.mpr ⟨p, hp, by simp [hpk]⟩)
    by_cases hk : k' = k
    · subst hk
      rw [hnone]
      simp [List.find?]
    · have hsingle : [(k, v)].find? (fun p => decide (p.1 = k')) = none := by
        rw [List.find?_cons_of_neg _ (by simp; exact fun hh => hk hh.symm)]
        rfl
      rw [hsingle, if_neg hk]
      cases o.find? (fun p => decide (p.1 = k')) <;> rfl

theorem objGet_objAssign_of_not_mem (k : String) :
    ∀ (m o : SettingsObj), k ∉ m.map Prod.fst → objGet (objAssign o m) k = objGet o k := by
  intro m
  induction m with
  | nil => intro o _; rfl
  | cons a rest ih =>
    intro o hk
    have hka : k ≠ a.1 := by
      intro hh; exact hk (by simp [hh])
    have hkrest : k ∉ rest.map Prod.fst := by
      intro hh; exact hk (by simp [hh])
    show objGet (objAssign (objSet o a.1 a.2) rest) k = objGet o k
    rw [ih (objSet o a.1 a.2) hkrest, objGet_objSet]
    simp [hka]

theorem objGet_objAssign_of_nodup (k w : String) :
    ∀ (m o : SettingsObj), (m.map Prod.fst).Nodup → objGet m k = some w →
      objGet (objAssign o m) k = some w := by
  intro m
  induction m with
  | nil => intro o _ h; cases h
  | cons a rest ih =>
    intro o hnodup hget
    have hnd : a.1 ∉ rest.map Prod.fst ∧ (rest.map Prod.fst).Nodup := by
      rw [List.map_cons, List.nodup_cons] at hnodup
      exact hnodup
    by_cases hka : a.1 = k
    · have hw : a.2 = w := by
        unfold objGet at hget
        rw [List.find?_cons_of_pos _ (by simp [hka])] at hget
        simpa using hget
      show objGet (objAssign (objSet o a.1 a.2) rest) k = some w
      rw [objGet_objAssign_of_not_mem k rest (objSet o a.1 a.2) (by rw [← hka]; exact hnd.1)]
      rw [objGet_objSet]
      simp [hka, hw]
    · have hget2 : objGet rest k = some w := by
        unfold objGet at hget ⊢
        rw [List.find?_cons_of_neg _ (by simp [hka])] at hget
        exact hget
      exact ih (objSet o a.1 a.2) hnd.2 hget2

/-- C9: when a component's trait values and its serialized
`data-settings` attribute both define a settings key, the reverse
mapping stores the attribute-sourced value: attribute-derived settings
are merged after trait-derived ones via `Object.assign` and the
later-written value wins. -/
theorem C9_attribute_settings_win (jsonParse : String → Option SettingsObj)
    (guid : Nat → String) (c : GComponent) (versionId : String) (parentId : JStr)
    (sortOrder : Nat) (s : String) (m : SettingsObj) (k w v : String)
    (hattr : attrGet c.attributes "data-settings" = some s) (hs : s ≠ "")
    (hparse : jsonParse s = some m) (hnodup : (m.map Prod.fst).Nodup)
    (_htrait : (k, some v) ∈ c.traits) (_hv : v ≠ "") (hmk : objGet m k = some w) :
    objGet (grapesComponentToBlock jsonParse guid c versionId parentId sortOrder).settings k
      = some w := by
  unfold grapesComponentToBlock
  rw [hattr]
  simp only [hs, if_false, hparse]
  exact objGet_objAssign_of_nodup k w m _ hnodup hmk

/-- Witness for C9 at a concrete component whose trait and attribute
both bind `"k"`. -/
theorem C9_witness :
    attrGet exampleComponent.attributes "data-settings" = some "DS" ∧
    dsParse "DS" = some [("k", "attrval")] ∧
    ("k", some "traitval") ∈ exampleComponent.traits ∧
    objGet (grapesComponentToBlock dsParse exampleGuid exampleComponent "v1" none 0).settings "k"
      = some "attrval" :=
  ⟨rfl, rfl, by simp [exampleComponent, GComponent.traits],
    C9_attribute_settings_win dsParse exampleGuid exampleComponent "v1" none 0 "DS"
      [("k", "attrval")] "k" "attrval" "traitval" rfl (by decide) rfl (by simp)
      (by simp [exampleComponent, GComponent.traits]) (by decide) rfl⟩

/-! ## C2: malformed stored settings abort the load -/

theorem parseDataverseBlock_error_msg (jsonParse : String → Option SettingsObj)
    (r : DVBlockRow) (e : String) (h : parseDataverseBlock jsonParse r = .error e) :
    e = "SyntaxError: JSON.parse" := by
  cases hd : r.pp_data with
  | none => simp only [parseDataverseBlock, hd] at h; cases h
  | some s =>
    simp only [parseDataverseBlock, hd] at h
    by_cases hs : s = ""
    · rw [if_pos hs] at h; cases h
    · rw [if_neg hs] at h
      cases hp : jsonParse s <;> rw [hp] at h <;> cases h
      rfl

theorem parseAll_error_of_bad (jsonParse : String → Option SettingsObj) :
    ∀ (rows : List DVBlockRow) (b : DVBlockRow) (s : String), b ∈ rows →
      b.pp_data = some s → s ≠ "" → jsonParse s = none →
      parseAll jsonParse rows = .error "SyntaxError: JSON.parse" := by
  intro rows
  induction rows with
  | nil => intro b s h; cases h
  | cons r rest ih =>
    intro b s hmem hdata hs hfail
    have hbad : parseDataverseBlock jsonParse b = .error "SyntaxError: JSON.parse" := by
      simp only [parseDataverseBlock, hdata]
      rw [if_neg hs, hfail]
    rcases List.mem_cons.mp hmem with h | h
    · subst h
      show (do
        let x ← parseDataverseBlock jsonParse b
        let xs ← parseAll jsonParse rest
        return x :: xs) = Except.error "SyntaxError: JSON.parse"
      rw [hbad]
      rfl
    · show (do
        let x ← parseDataverseBlock jsonParse r
        let xs ← parseAll jsonParse rest
        return x :: xs) = Except.error "SyntaxError: JSON.parse"
      cases hr : parseDataverseBlock jsonParse r with
      | error e =>
        have := parseDataverseBlock_error_msg jsonParse r e hr
        subst this
        rfl
      | ok x =>
        have hrest := ih b s h hdata hs hfail
        show Except.bind (Except.ok x) _ = _
        rw [show Except.bind (Except.ok x)
            (fun x => do
              let xs ← parseAll jsonParse rest
              return x :: xs) = (do
              let xs ← parseAll jsonParse rest
              return x :: xs) from rfl]
        rw [hrest]
        rfl

/-- C2 (amended): a stored block whose `pp_data` fails to parse makes
the whole Dataverse-to-tree conversion abort with the parse exception —
`_parseDataverseBlock` does not catch `JSON.parse` failures; settings
are treated as empty only when `pp_data` is absent or empty.  (The
load-for-editing workflow never even reaches block parsing: see
`C3_load_for_editing_always_fails`.) -/
theorem C2_parse_failure_aborts_load (jsonParse : String → Option SettingsObj)
    (rows : List DVBlockRow) (b : DVBlockRow) (s : String) (hmem : b ∈ rows)
    (hdata : b.pp_data = some s) (hs : s ≠ "") (hfail : jsonParse s = none) :
    dataverseToGrapesJS jsonParse rows = .error "SyntaxError: JSON.parse" := by
  unfold dataverseToGrapesJS
  rw [parseAll_error_of_bad jsonParse rows b s hmem hdata hs hfail]
  rfl

/-- Witness for the amended C2: the concrete bad row aborts the
conversion. -/
theorem C2_witness :
    badDataRow ∈ [badDataRow] ∧ badDataRow.pp_data = some "\x7b" ∧ failParse "\x7b" = none ∧
    dataverseToGrapesJS failParse [badDataRow] = .error "SyntaxError: JSON.parse" :=
  ⟨by simp, rfl, rfl,
    C2_parse_failure_aborts_load failParse [badDataRow] badDataRow "\x7b" (by simp) rfl
      (by decide) rfl⟩

/-- Counterexample to C2 as stated: for a list containing one block
whose stored settings text is invalid (its parse fails), the
conversion does not treat that block's settings as the empty map and
continue — it returns the parse error, so one bad block does abort the
whole load. -/
theorem C2_counterexample :
    jsTruthy badDataRow.pp_data = true ∧
    (∀ out : List GrapesOut, dataverseToGrapesJS failParse [badDataRow] ≠ .ok out) ∧
    dataverseToGrapesJS failParse [badDataRow] = .error "SyntaxError: JSON.parse" := by
  refine ⟨rfl, ?_, rfl⟩
  intro out h
  rw [show dataverseToGrapesJS failParse [badDataRow]
      = .error "SyntaxError: JSON.parse" from rfl] at h
  cases h

/-! ## C6: padding class mapping -/

theorem take5_append (a x : String) (h5 : 5 ≤ a.data.length) :
    (a ++ x).data.take 5 = a.data.take 5 := by
  rw [String.data_append, List.take_append_of_le_length h5]

/-- A class built from a ≥ 5 character literal whose first five
characters differ from `tw-p-` is never one of the padding scale
classes, whatever the dynamic suffix. -/
theorem append_notin_pad (a : String) (h5 : 5 ≤ a.data.length)
    (hne : a.data.take 5 ≠ ['t', 'w', '-', 'p', '-']) :
    ∀ x, (a ++ x) ∉ paddingScaleClasses := by
  intro x h
  have key : (a ++ x).data.take 5 = a.data.take 5 := take5_append a x h5
  simp only [paddingScaleClasses, List.mem_cons, List.not_mem_nil, or_false] at h
  rcases h with h | h | h | h | h <;> exact hne (by rw [← key, h]; decide)

theorem bg_notin_pad (s : SettingsObj) : ∀ c ∈ bgClassList s, c ∉ paddingScaleClasses := by
  intro c hc
  cases hg : objGet s "backgroundColor" with
  | none =>
    simp only [bgClassList, hg] at hc
    exact absurd hc (List.not_mem_nil c)
  | some v =>
    simp only [bgClassList, hg] at hc
    split_ifs at hc with h1 h2 h3
    · exact absurd hc (List.not_mem_nil c)
    · rw [List.mem_singleton] at hc; subst hc; decide
    · rw [List.mem_singleton] at hc; subst hc; decide
    · rw [List.mem_singleton] at hc; subst hc
      exact append_notin_pad "tw-bg-" (by decide) (by decide) _

theorem text_notin_pad (s : SettingsObj) :
    ∀ c ∈ textColorClassList s, c ∉ paddingScaleClasses := by
  intro c hc
  cases hg : objGet s "color" with
  | none =>
    simp only [textColorClassList, hg] at hc
    exact absurd hc (List.not_mem_nil c)
  | some v =>
    simp only [textColorClassList, hg] at hc
    split_ifs at hc with h1 h2
    · exact absurd hc (List.not_mem_nil c)
    · rw [List.mem_singleton] at hc; subst hc; decide
    · rw [List.mem_singleton] at hc; subst hc
      exact append_notin_pad "tw-text-" (by decide) (by decide) _

theorem margin_notin_pad (s : SettingsObj) :
    ∀ c ∈ marginClassList s, c ∉ paddingScaleClasses := by
  intro c hc
  cases hg : objGet s "margin" with
  | none =>
    simp only [marginClassList, hg] at hc
    exact absurd hc (List.not_mem_nil c)
  | some v =>
    simp only [marginClassList, hg] at hc
    split_ifs at hc with h1
    · exact absurd hc (List.not_mem_nil c)
    · rw [List.mem_singleton] at hc; subst hc
      unfold marginMapLookup
      split_ifs <;> decide

theorem align_notin_pad (s : SettingsObj) :
    ∀ c ∈ alignClassList s, c ∉ paddingScaleClasses := by
  intro c hc
  cases hg : objGet s "align" with
  | none =>
    simp only [alignClassList, hg] at hc
    exact absurd hc (List.not_mem_nil c)
  | some v =>
    simp only [alignClassList, hg] at hc
    split_ifs at hc with h1
    · exact absurd hc (List.not_mem_nil c)
    · rw [List.mem_singleton] at hc; subst hc
      exact append_notin_pad "tw-text-" (by decide) (by decide) _

theorem fontSize_notin_pad (s : SettingsObj) :
    ∀ c ∈ fontSizeClassList s, c ∉ paddingScaleClasses := by
  intro c hc
  cases hg : objGet s "fontSize" with
  | none =>
    simp only [fontSizeClassList, hg] at hc
    exact absurd hc (List.not_mem_nil c)
  | some v =>
    simp only [fontSizeClassList, hg] at hc
    split_ifs at hc with h1
    · exact absurd hc (List.not_mem_nil c)
    · rw [List.mem_singleton] at hc; subst hc
      exact append_notin_pad "tw-text-" (by decide) (by decide) _

theorem fontWeight_notin_pad (s : SettingsObj) :
    ∀ c ∈ fontWeightClassList s, c ∉ paddingScaleClasses := by
  intro c hc
  cases hg : objGet s "fontWeight" with
  | none =>
    simp only [fontWeightClassList, hg] at hc
    exact absurd hc (List.not_mem_nil c)
  | some v =>
    simp only [fontWeightClassList, hg] at hc
    split_ifs at hc with h1
    · exact absurd hc (List.not_mem_nil c)
    · rw [List.mem_singleton] at hc; subst hc
      exact append_notin_pad "tw-font-" (by decide) (by decide) _

theorem container_notin_pad (s : SettingsObj) :
    ∀ c ∈ containerClassList s, c ∉ paddingScaleClasses := by
  intro c hc
  cases hg : objGet s "containerWidth" with
  | none =>
    simp only [containerClassList, hg] at hc
    exact absurd hc (List.not_mem_nil c)
  | some v =>
    simp only [containerClassList, hg] at hc
    split_ifs at hc with h1 h2 h3 h4 h5
    · exact absurd hc (List.not_mem_nil c)
    · rw [List.mem_singleton] at hc; subst hc; decide
    · rw [List.mem_singleton] at hc; subst hc; decide
    · rw [List.mem_singleton] at hc; subst hc; decide
    · rw [List.mem_singleton] at hc; subst hc; decide
    · exact absurd hc (List.not_mem_nil c)

theorem paddingMapLookup_unknown (v : String)
    (h : v ∉ ["none", "small", "medium", "large", "xlarge"]) : paddingMapLookup v = "" := by
  unfold paddingMapLookup
  split_ifs with h1 h2 h3 h4 h5
  · exact absurd (by simp [h1]) h
  · exact absurd (by simp [h2]) h
  · exact absurd (by simp [h3]) h
  · exact absurd (by simp [h4]) h
  · exact absurd (by simp [h5]) h
  · rfl

/-- C6: with `padding = "medium"` the mapper emits the medium padding
class and no other padding scale class; with any padding value outside
the enumeration it emits no padding scale class at all (the unknown
value contributes only an empty string, dropped by the final filter). -/
theorem C6_padding_mapping : ∀ s : SettingsObj,
    (objGet s "padding" = some "medium" →
      "tw-p-8" ∈ settingsToClasses s ∧
        ∀ c ∈ settingsToClasses s, c ∈ paddingScaleClasses → c = "tw-p-8") ∧
    (∀ v, objGet s "padding" = some v →
      v ∉ ["none", "small", "medium", "large", "xlarge"] →
      ∀ c ∈ settingsToClasses s, c ∉ paddingScaleClasses) := by
  intro s
  constructor
  · intro hmed
    have hpad : paddingClassList s = ["tw-p-8"] := by
      simp [paddingClassList, hmed, paddingMapLookup]
    constructor
    · unfold settingsToClasses
      rw [List.mem_filter]
      refine ⟨?_, by decide⟩
      simp only [List.mem_append, hpad, List.mem_singleton]
      tauto
    · intro c hc hcpad
      unfold settingsToClasses at hc
      rw [List.mem_filter] at hc
      obtain ⟨hc, _⟩ := hc
      simp only [List.mem_append, or_assoc] at hc
      rcases hc with h | h | h | h | h | h | h | h
      · exact absurd hcpad (bg_notin_pad s c h)
      · exact absurd hcpad (text_notin_pad s c h)
      · rw [hpad, List.mem_singleton] at h; exact h
      · exact absurd hcpad (margin_notin_pad s c h)
      · exact absurd hcpad (align_notin_pad s c h)
      · exact absurd hcpad (fontSize_notin_pad s c h)
      · exact absurd hcpad (fontWeight_notin_pad s c h)
      · exact absurd hcpad (container_notin_pad s c h)
  · intro v hv hvout c hc
    unfold settingsToClasses at hc
    rw [List.mem_filter] at hc
    obtain ⟨hc, hcne⟩ := hc
    simp only [List.mem_append, or_assoc] at hc
    rcases hc with h | h | h | h | h | h | h | h
    · exact bg_notin_pad s c h
    · exact text_notin_pad s c h
    · exfalso
      simp only [paddingClassList, hv] at h
      split_ifs at h with h1
      · exact absurd h (List.not_mem_nil c)
      · rw [List.mem_singleton] at h
        rw [paddingMapLookup_unknown v hvout] at h
        subst h
        simp at hcne
    · exact margin_notin_pad s c h
    · exact align_notin_pad s c h
    · exact fontSize_notin_pad s c h
    · exact fontWeight_notin_pad s c h
    · exact container_notin_pad s c h

/-- Witness for C6 at the spec's concrete inputs `{padding: "medium"}`
(plus a colliding color key) and `{padding: "bogus"}`. -/
theorem C6_witness :
    "tw-p-8" ∈ settingsToClasses [("padding", "medium"), ("color", "red")] ∧
    (∀ c ∈ settingsToClasses [("padding", "bogus"), ("margin", "small")],
      c ∉ paddingScaleClasses) :=
  ⟨((C6_padding_mapping [("padding", "medium"), ("color", "red")]).1 rfl).1,
    (C6_padding_mapping [("padding", "bogus"), ("margin", "small")]).2 "bogus" rfl (by decide)⟩

/-! ## C5: flattening assigns sort orders 0..n-1 in pre-order -/

theorem range'_append_eq (s m n : Nat) :
    List.range' s m ++ List.range' (s + m) n = List.range' s (m + n) := by
  have h := List.range'_append s m n 1
  rw [Nat.one_mul] at h
  rw [h, Nat.add_comm n m]

mutual
theorem flattenNode_count (b : BlockNode) (p : JStr) (n : Nat) :
    (flattenNode b p n).2 = n + (flattenNode b p n).1.length := by
  cases b with
  | node d cs =>
    have h := flattenChildren_count cs d.id (n + 1)
    simp only [flattenNode]
    simp only [List.length_cons]
    omega

theorem flattenChildren_count (cs : List BlockNode) (p : JStr) (n : Nat) :
    (flattenChildren cs p n).2 = n + (flattenChildren cs p n).1.length := by
  cases cs with
  | nil => simp [flattenChildren]
  | cons c cs' =>
    have h1 := flattenNode_count c p n
    have h2 := flattenChildren_count cs' p (flattenNode c p n).2
    simp only [flattenChildren]
    simp only [List.length_append]
    omega
end

mutual
theorem flattenNode_orders (b : BlockNode) (p : JStr) (n : Nat) :
    (flattenNode b p n).1.map (fun r => r.sortOrder)
      = (List.range' n (flattenNode b p n).1.length).map Int.ofNat := by
  cases b with
  | node d cs =>
    have h := flattenChildren_orders cs d.id (n + 1)
    simp only [flattenNode, List.map_cons, List.length_cons]
    rw [h]
    rfl

theorem flattenChildren_orders (cs : List BlockNode) (p : JStr) (n : Nat) :
    (flattenChildren cs p n).1.map (fun r => r.sortOrder)
      = (List.range' n (flattenChildren cs p n).1.length).map Int.ofNat := by
  cases cs with
  | nil => simp [flattenChildren]
  | cons c cs' =>
    have h1 := flattenNode_orders c p n
    have h2 := flattenChildren_orders cs' p (flattenNode c p n).2
    have hc := flattenNode_count c p n
    simp only [flattenChildren, List.map_append, List.length_append]
    rw [h1, h2, hc]
    rw [← List.map_append]
    rw [range'_append_eq]
end

mutual
theorem flattenNode_data (b : BlockNode) (p : JStr) (n : Nat) :
    (flattenNode b p n).1.map (fun r => r.data) = preorderDataNode b := by
  cases b with
  | node d cs =>
    have h := flattenChildren_data cs d.id (n + 1)
    simp only [flattenNode, List.map_cons, preorderDataNode]
    rw [h]

theorem flattenChildren_data (cs : List BlockNode) (p : JStr) (n : Nat) :
    (flattenChildren cs p n).1.map (fun r => r.data) = preorderData cs := by
  cases cs with
  | nil => simp [flattenChildren, preorderData]
  | cons c cs' =>
    have h1 := flattenNode_data c p n
    have h2 := flattenChildren_data cs' p (flattenNode c p n).2
    simp only [flattenChildren, List.map_append, preorderData]
    rw [h1, h2]
end

/-- C5: flattening any forest assigns sort orders exactly 0..n-1 in
emission order while the emitted records list the forest's node data in
pre-order (parent before children, children and roots in list order),
discarding the nodes' own sort-order values; in particular the forest
`[B, A[X, Y], C]` flattens to `B=0, A=1, X=2, Y=3, C=4`. -/
theorem C5_flatten_preorder_sort_orders :
    (∀ F : List BlockNode,
      (flattenBlockTree F).map (fun r => r.sortOrder)
          = (List.range (flattenBlockTree F).length).map Int.ofNat ∧
        (flattenBlockTree F).map (fun r => r.data) = preorderData F) ∧
    (flattenBlockTree exampleForest).map (fun r => (r.data.id, r.sortOrder))
        = [(some "B", 0), (some "A", 1), (some "X", 2), (some "Y", 3), (some "C", 4)] := by
  constructor
  · intro F
    constructor
    · have h := flattenChildren_orders F none 0
      rw [List.range_eq_range']
      exact h
    · exact flattenChildren_data F none 0
  · rfl

/-! ## C4: orphaned blocks are dropped from the rebuilt tree -/

theorem getLast?_mem_of_eq {α : Type} {l : List α} {a : α} (h : l.getLast? = some a) :
    a ∈ l := by
  obtain ⟨hne, heq⟩ :=
    List.mem_getLast?_eq_getLast (show a ∈ l.getLast? from Option.mem_def.mpr h)
  rw [heq]
  exact List.getLast_mem hne

/-- When `k` is a key of the list, the map node under `k` is a record
of the list whose key is `k`. -/
theorem mapNode_spec (flats : List FlatBlock) (k : JStr) (hk : k ∈ flats.map keyOf) :
    mapNode flats k ∈ flats ∧ keyOf (mapNode flats k) = k := by
  unfold mapNode
  obtain ⟨b, hb, hbk⟩ := List.mem_map.mp hk
  have hfil : b ∈ flats.filter (fun x => decide (keyOf x = k)) :=
    List.mem_filter.mpr ⟨hb, by simp [hbk]⟩
  cases hlast : (flats.filter (fun x => decide (keyOf x = k))).getLast? with
  | none =>
    exfalso
    have hnil := List.getLast?_eq_none_iff.mp hlast
    rw [hnil] at hfil
    exact absurd hfil (List.not_mem_nil b)
  | some r =>
    have hr := getLast?_mem_of_eq hlast
    have hr2 := List.mem_filter.mp hr
    simpa using ⟨hr2.1, by simpa using hr2.2⟩

theorem containsForest_eq_false (r : FlatBlock) (ns : List BuiltNode) :
    containsForest r ns = false ↔ ∀ n ∈ ns, containsRec r n = false := by
  induction ns with
  | nil => simp [containsForest]
  | cons c cs ih =>
    show (containsRec r c || containsForest r cs) = false ↔ _
    rw [Bool.or_eq_false_iff, ih]
    constructor
    · rintro ⟨h1, h2⟩ n hn
      rcases List.mem_cons.mp hn with h | h
      · subst h; exact h1
      · exact h2 n h
    · intro h
      exact ⟨h c (List.mem_cons_self c cs), fun n hn => h n (List.mem_cons_of_mem c hn)⟩

theorem buildNode_not_contains (flats : List FlatBlock) (orph : FlatBlock)
    (hmem : orph ∈ flats) (hnodup : (flats.map keyOf).Nodup)
    (hpar : parentOf orph ∉ flats.map keyOf) :
    ∀ (fuel : Nat) (k : JStr), k ∈ flats.map keyOf → k ≠ keyOf orph →
      containsRec orph (buildNode flats fuel k) = false := by
  intro fuel
  induction fuel with
  | zero =>
    intro k hk hkne
    have hspec := mapNode_spec flats k hk
    have hhead : mapNode flats k ≠ orph := fun he => hkne (by rw [← hspec.2, he])
    simp [buildNode, containsRec, containsForest, hhead]
  | succ fuel ih =>
    intro k hk hkne
    have hspec := mapNode_spec flats k hk
    have hhead : mapNode flats k ≠ orph := fun he => hkne (by rw [← hspec.2, he])
    show containsRec orph
      (.node (mapNode flats k)
        ((childRecs flats k).map (fun b => buildNode flats fuel (keyOf b)))) = false
    simp only [containsRec]
    rw [Bool.or_eq_false_iff]
    refine ⟨by simp [hhead], ?_⟩
    rw [containsForest_eq_false]
    intro n hn
    obtain ⟨b, hb, rfl⟩ := List.mem_map.mp hn
    have hbfil := List.mem_filter.mp hb
    have hbf : b ∈ flats := hbfil.1
    apply ih
    · exact List.mem_map.mpr ⟨b, hbf, rfl⟩
    · intro he
      have hbo : b = orph := List.inj_on_of_nodup_map hnodup hbf hmem he
      have hcond := hbfil.2
      rw [hbo] at hcond
      simp only [Bool.and_eq_true, decide_eq_true_eq] at hcond
      exact hpar (hcond.2 ▸ hk)

/-- C4 (amended): in a flat block list whose resolved identifiers
(`id || pp_blockid`) are pairwise distinct, a block whose resolved
parent reference is truthy and absent from the list's identifiers
appears nowhere in the tree built by `buildBlockTree` — neither as a
root nor as a descendant — and no error is raised (the conversion is a
total function). -/
theorem C4_orphan_dropped (flats : List FlatBlock) (orph : FlatBlock)
    (hmem : orph ∈ flats) (htr : jsTruthy (parentOf orph) = true)
    (hpar : parentOf orph ∉ flats.map keyOf) (hnodup : (flats.map keyOf).Nodup) :
    containsForest orph (buildBlockTree flats) = false := by
  unfold buildBlockTree
  rw [containsForest_eq_false]
  intro n hn
  obtain ⟨b, hb, rfl⟩ := List.mem_map.mp hn
  have hbfil := List.mem_filter.mp hb
  have hbf : b ∈ flats := hbfil.1
  apply buildNode_not_contains flats orph hmem hnodup hpar
  · exact List.mem_map.mpr ⟨b, hbf, rfl⟩
  · intro he
    have hbo : b = orph := List.inj_on_of_nodup_map hnodup hbf hmem he
    have hcond := hbfil.2
    rw [hbo] at hcond
    simp only [Bool.not_eq_true'] at hcond
    rw [htr] at hcond
    cases hcond

/-- Witness for the amended C4: with distinct keys the orphan is
dropped. -/
theorem C4_witness :
    soloOrphan ∈ [dupRoot, soloOrphan] ∧
    jsTruthy (parentOf soloOrphan) = true ∧
    parentOf soloOrphan ∉ [dupRoot, soloOrphan].map keyOf ∧
    ([dupRoot, soloOrphan].map keyOf).Nodup ∧
    containsForest soloOrphan (buildBlockTree [dupRoot, soloOrphan]) = false :=
  ⟨by decide, by decide, by decide, by decide,
    C4_orphan_dropped [dupRoot, soloOrphan] soloOrphan (by decide) (by decide) (by decide)
      (by decide)⟩

/-- Counterexample to C4 as stated ("for every flat block list"): with
a duplicated identifier the `Map.set` overwrite makes the root slot
hold the orphan's record, so the block with the dangling parent
reference does appear in the tree. -/
theorem C4_counterexample :
    jsTruthy (parentOf dupOrphan) = true ∧
    parentOf dupOrphan ∉ [dupRoot, dupOrphan].map keyOf ∧
    containsForest dupOrphan (buildBlockTree [dupRoot, dupOrphan]) = true := by
  exact ⟨by decide, by decide, by decide⟩

/-! ## C8: cascading delete issues blocks-then-version per version,
then the page -/

theorem insertLe_perm {α : Type} (le : α → α → Bool) (x : α) (l : List α) :
    (insertLe le x l).Perm (x :: l) := by
  induction l with
  | nil => exact List.Perm.refl _
  | cons y ys ih =>
    unfold insertLe
    by_cases h : le y x
    · rw [if_pos h]
      exact (List.Perm.cons y ih).trans (List.Perm.swap x y ys)
    · rw [if_neg h]

theorem sortByLe_perm {α : Type} (le : α → α → Bool) (l : List α) :
    (sortByLe le l).Perm l := by
  suffices h : ∀ acc : List α,
      (l.foldl (fun a x => insertLe le x a) acc).Perm (acc ++ l) by
    simpa using h []
  induction l with
  | nil => intro acc; simp
  | cons x xs ih =>
    intro acc
    rw [List.foldl_cons]
    refine (ih (insertLe le x acc)).trans ?_
    refine ((insertLe_perm le x acc).append_right xs).trans ?_
    exact List.perm_middle.symm

theorem sortByLe_length {α : Type} (le : α → α → Bool) (l : List α) :
    (sortByLe le l).length = l.length := (sortByLe_perm le l).length_eq

theorem mem_sortByLe {α : Type} (le : α → α → Bool) (l : List α) (a : α) :
    a ∈ sortByLe le l ↔ a ∈ l := (sortByLe_perm le l).mem_iff

theorem foldl_deleteBlockRow_spec (bs : List DVBlockRow) : ∀ db : DB,
    (bs.foldl (fun acc b => deleteBlockRow acc b.pp_blockid) db).pages = db.pages ∧
    (bs.foldl (fun acc b => deleteBlockRow acc b.pp_blockid) db).versions = db.versions ∧
    (bs.foldl (fun acc b => deleteBlockRow acc b.pp_blockid) db).blocks
      = db.blocks.filter
          (fun x => bs.all (fun b => decide (x.pp_blockid ≠ b.pp_blockid))) := by
  induction bs with
  | nil => intro db; exact ⟨rfl, rfl, by simp⟩
  | cons b bs' ih =>
    intro db
    obtain ⟨h1, h2, h3⟩ := ih (deleteBlockRow db b.pp_blockid)
    rw [List.foldl_cons]
    refine ⟨h1, h2, ?_⟩
    rw [h3]
    show (db.blocks.filter (fun x => decide (x.pp_blockid ≠ b.pp_blockid))).filter _ = _
    rw [List.filter_filter]
    apply List.filter_congr
    intro x _
    rw [List.all_cons, Bool.and_comm]

theorem deleteAllBlocks_spec (db : DB) (vid : String) :
    (deleteAllBlocks db vid).1.pages = db.pages ∧
    (deleteAllBlocks db vid).1.versions = db.versions ∧
    (deleteAllBlocks db vid).1.blocks
      = db.blocks.filter (fun x =>
          (sortByLe (fun a b => b.pp_order ≤ a.pp_order) (getBlocks db vid)).all
            (fun b => decide (x.pp_blockid ≠ b.pp_blockid))) ∧
    (deleteAllBlocks db vid).2
      = (sortByLe (fun a b => b.pp_order ≤ a.pp_order) (getBlocks db vid)).map
          (fun b => Req.delBlock b.pp_blockid) := by
  obtain ⟨h1, h2, h3⟩ :=
    foldl_deleteBlockRow_spec
      (sortByLe (fun a b => b.pp_order ≤ a.pp_order) (getBlocks db vid)) db
  exact ⟨h1, h2, h3, rfl⟩

theorem deleteAllBlocks_trace_length (db : DB) (vid : String) :
    (deleteAllBlocks db vid).2.length = (blockRowsOf db vid).length := by
  obtain ⟨-, -, -, h4⟩ := deleteAllBlocks_spec db vid
  rw [h4, List.length_map, sortByLe_length]
  unfold getBlocks
  rw [sortByLe_length]

/-- Membership in the descending-sorted delete list is membership in
the version's active rows. -/
theorem mem_deleteList (db : DB) (vid : String) (b : DVBlockRow) :
    b ∈ sortByLe (fun a b => b.pp_order ≤ a.pp_order) (getBlocks db vid) ↔
      b ∈ blockRowsOf db vid := by
  rw [mem_sortByLe]
  unfold getBlocks
  rw [mem_sortByLe]

/-- Helper: a block-delete trace filtered for block deletes is itself;
filtered for other kinds it is empty. -/
theorem delBlock_map_filter_self (bs : List DVBlockRow) :
    (bs.map (fun b => Req.delBlock b.pp_blockid)).filter Req.isDelBlock
      = bs.map (fun b => Req.delBlock b.pp_blockid) := by
  rw [List.filter_eq_self]
  intro r hr
  obtain ⟨b, _, rfl⟩ := List.mem_map.mp hr
  rfl

theorem delBlock_map_filter_ver (bs : List DVBlockRow) :
    (bs.map (fun b => Req.delBlock b.pp_blockid)).filter Req.isDelVersion = [] := by
  rw [List.filter_eq_nil_iff]
  intro r hr
  obtain ⟨b, _, rfl⟩ := List.mem_map.mp hr
  simp [Req.isDelVersion]

theorem delBlock_map_filter_page (bs : List DVBlockRow) :
    (bs.map (fun b => Req.delBlock b.pp_blockid)).filter Req.isDelPage = [] := by
  rw [List.filter_eq_nil_iff]
  intro r hr
  obtain ⟨b, _, rfl⟩ := List.mem_map.mp hr
  simp [Req.isDelPage]

/-- C8: for a page with exactly two versions, each carrying exactly
three active blocks (all block identifiers distinct, the two version
identifiers distinct), the delete-page workflow issues exactly 6
block-delete requests, 2 version-delete requests and 1 page-delete
request, and the trace has the shape blocks-of-version, that version,
blocks-of-other-version, that other version, page. -/
theorem C8_cascading_delete (db : DB) (pageId : String)
    (hv2 : (versionRowsOf db pageId).length = 2)
    (hb3 : ∀ v ∈ versionRowsOf db pageId, (blockRowsOf db v.pp_versionid).length = 3)
    (hnodupB : (db.blocks.map (fun b => b.pp_blockid)).Nodup)
    (hnodupV : ((versionRowsOf db pageId).map (fun v => v.pp_versionid)).Nodup) :
    ∃ (va vb : VersionRow) (bs1 bs2 : List DVBlockRow),
      getPageVersions db pageId = [va, vb] ∧
      va ∈ versionRowsOf db pageId ∧ vb ∈ versionRowsOf db pageId ∧
      bs1.length = 3 ∧ bs2.length = 3 ∧
      (pmDeletePage db pageId).2
        = bs1.map (fun b => Req.delBlock b.pp_blockid) ++ [Req.delVersion va.pp_versionid]
            ++ bs2.map (fun b => Req.delBlock b.pp_blockid)
            ++ [Req.delVersion vb.pp_versionid] ++ [Req.delPage pageId] ∧
      ((pmDeletePage db pageId).2.filter Req.isDelBlock).length = 6 ∧
      ((pmDeletePage db pageId).2.filter Req.isDelVersion).length = 2 ∧
      ((pmDeletePage db pageId).2.filter Req.isDelPage).length = 1 := by
  have hperm := sortByLe_perm
    (fun a b : VersionRow => decide (b.pp_versionnumber ≤ a.pp_versionnumber))
    (versionRowsOf db pageId)
  have hlen : (getPageVersions db pageId).length = 2 := by
    unfold getPageVersions
    rw [sortByLe_length]
    exact hv2
  obtain ⟨va, vb, hsvs⟩ := List.length_eq_two.mp hlen
  have hva : va ∈ versionRowsOf db pageId := by
    have hm : va ∈ getPageVersions db pageId := by rw [hsvs]; simp
    unfold getPageVersions at hm
    rwa [mem_sortByLe] at hm
  have hvb : vb ∈ versionRowsOf db pageId := by
    have hm : vb ∈ getPageVersions db pageId := by rw [hsvs]; simp
    unfold getPageVersions at hm
    rwa [mem_sortByLe] at hm
  have hvne : va.pp_versionid ≠ vb.pp_versionid := by
    have hnd : ((getPageVersions db pageId).map (fun v => v.pp_versionid)).Nodup := by
      unfold getPageVersions
      exact ((hperm.map (fun v => v.pp_versionid)).nodup_iff).mpr hnodupV
    rw [hsvs] at hnd
    simp at hnd
    exact hnd
  obtain ⟨hp1, hver1, hblk1, htr1⟩ := deleteAllBlocks_spec db va.pp_versionid
  have hblocks1 :
      (deleteVersionRow (deleteAllBlocks db va.pp_versionid).1 va.pp_versionid).blocks
        = (deleteAllBlocks db va.pp_versionid).1.blocks := rfl
  have hrows2 :
      blockRowsOf (deleteVersionRow (deleteAllBlocks db va.pp_versionid).1 va.pp_versionid)
          vb.pp_versionid
        = blockRowsOf db vb.pp_versionid := by
    show (deleteVersionRow (deleteAllBlocks db va.pp_versionid).1 va.pp_versionid).blocks.filter _
        = db.blocks.filter _
    rw [hblocks1, hblk1, List.filter_filter]
    apply List.filter_congr
    intro x hx
    by_cases hxv :
        (x.versionId = vb.pp_versionid && x.pp_isactive && decide (x.statecode = 0)) = true
    · rw [hxv, Bool.true_and]
      have hxvb : x.versionId = vb.pp_versionid := by
        simp only [Bool.and_eq_true, decide_eq_true_eq] at hxv
        exact hxv.1.1
      rw [List.all_eq_true]
      intro b hbmem
      have hbrows : b ∈ blockRowsOf db va.pp_versionid :=
        (mem_deleteList db va.pp_versionid b).mp hbmem
      have hbva : b.versionId = va.pp_versionid := by
        have hcond := (List.mem_filter.mp hbrows).2
        simp only [Bool.and_eq_true, decide_eq_true_eq] at hcond
        exact hcond.1.1
      have hbx : b ≠ x := by
        intro he
        rw [he, hxvb] at hbva
        exact hvne hbva.symm
      have hbdb : b ∈ db.blocks := (List.mem_filter.mp hbrows).1
      simp only [decide_eq_true_eq]
      intro hid
      exact hbx (List.inj_on_of_nodup_map hnodupB hbdb hx hid.symm)
    · rw [Bool.not_eq_true] at hxv
      rw [hxv, Bool.false_and]
  obtain ⟨hp2, hver2, hblk2, htr2⟩ := deleteAllBlocks_spec
    (deleteVersionRow (deleteAllBlocks db va.pp_versionid).1 va.pp_versionid) vb.pp_versionid
  have hlen1 :
      (sortByLe (fun a b : DVBlockRow => decide (b.pp_order ≤ a.pp_order))
        (getBlocks db va.pp_versionid)).length = 3 := by
    rw [sortByLe_length]
    unfold getBlocks
    rw [sortByLe_length]
    exact hb3 va hva
  have hlen2 :
      (sortByLe (fun a b : DVBlockRow => decide (b.pp_order ≤ a.pp_order))
        (getBlocks
          (deleteVersionRow (deleteAllBlocks db va.pp_versionid).1 va.pp_versionid)
          vb.pp_versionid)).length = 3 := by
    rw [sortByLe_length]
    unfold getBlocks
    rw [sortByLe_length, hrows2]
    exact hb3 vb hvb
  have hstep : (pmDeletePage db pageId).2
      = ([] : List Req) ++ (deleteAllBlocks db va.pp_versionid).2
          ++ [Req.delVersion va.pp_versionid]
          ++ (deleteAllBlocks
              (deleteVersionRow (deleteAllBlocks db va.pp_versionid).1 va.pp_versionid)
              vb.pp_versionid).2
          ++ [Req.delVersion vb.pp_versionid] ++ [Req.delPage pageId] := by
    unfold pmDeletePage
    rw [hsvs]
    rfl
  have htrace : (pmDeletePage db pageId).2
      = (sortByLe (fun a b : DVBlockRow => decide (b.pp_order ≤ a.pp_order))
            (getBlocks db va.pp_versionid)).map (fun b => Req.delBlock b.pp_blockid)
          ++ [Req.delVersion va.pp_versionid]
          ++ (sortByLe (fun a b : DVBlockRow => decide (b.pp_order ≤ a.pp_order))
              (getBlocks
                (deleteVersionRow (deleteAllBlocks db va.pp_versionid).1 va.pp_versionid)
                vb.pp_versionid)).map (fun b => Req.delBlock b.pp_blockid)
          ++ [Req.delVersion vb.pp_versionid] ++ [Req.delPage pageId] := by
    rw [hstep, htr1, htr2]
    rw [List.nil_append]
  refine ⟨va, vb, _, _, hsvs, hva, hvb, hlen1, hlen2, htrace, ?_, ?_, ?_⟩
  · rw [htrace]
    simp only [List.filter_append, List.length_append, delBlock_map_filter_self]
    rw [show [Req.delVersion va.pp_versionid].filter Req.isDelBlock = [] from rfl]
    rw [show [Req.delVersion vb.pp_versionid].filter Req.isDelBlock = [] from rfl]
    rw [show [Req.delPage pageId].filter Req.isDelBlock = [] from rfl]
    simp only [List.length_nil, List.length_map]
    rw [hlen1, hlen2]
  · rw [htrace]
    simp only [List.filter_append, List.length_append, delBlock_map_filter_ver]
    rw [show [Req.delVersion va.pp_versionid].filter Req.isDelVersion
        = [Req.delVersion va.pp_versionid] from rfl]
    rw [show [Req.delVersion vb.pp_versionid].filter Req.isDelVersion
        = [Req.delVersion vb.pp_versionid] from rfl]
    rw [show [Req.delPage pageId].filter Req.isDelVersion = [] from rfl]
    rfl
  · rw [htrace]
    simp only [List.filter_append, List.length_append, delBlock_map_filter_page]
    rw [show [Req.delVersion va.pp_versionid].filter Req.isDelPage = [] from rfl]
    rw [show [Req.delVersion vb.pp_versionid].filter Req.isDelPage = [] from rfl]
    rw [show [Req.delPage pageId].filter Req.isDelPage = [Req.delPage pageId] from rfl]
    rfl

/-! ## C7: full-clone publish -/

theorem pubIdMapFrom_append (xs ys : List DVBlockRow) :
    ∀ n : Nat, pubIdMapFrom n (xs ++ ys)
      = pubIdMapFrom n xs ++ pubIdMapFrom (n + xs.length) ys := by
  induction xs with
  | nil => intro n; simp [pubIdMapFrom]
  | cons x xs ih =>
    intro n
    show (x.pp_blockid, some (genId n)) :: pubIdMapFrom (n + 1) (xs ++ ys) = _
    rw [ih (n + 1)]
    simp only [pubIdMapFrom, List.length_cons, List.cons_append]
    rw [show n + 1 + xs.length = n + (xs.length + 1) from by omega]

theorem cloneRowsFrom_length (jsonParse : String → Option SettingsObj)
    (stringify : SettingsObj → String) (newVid : String) (withRemap : Bool) :
    ∀ (olds : List DVBlockRow) (m : List (JStr × JStr)) (n : Nat),
      (cloneRowsFrom jsonParse stringify newVid withRemap m n olds).length = olds.length := by
  intro olds
  induction olds with
  | nil => intro m n; rfl
  | cons b bs ih =>
    intro m n
    show (cloneRowsFrom jsonParse stringify newVid withRemap _ _ bs).length + 1 = bs.length + 1
    rw [ih]

theorem cloneRowsFrom_versionId (jsonParse : String → Option SettingsObj)
    (stringify : SettingsObj → String) (newVid : String) (withRemap : Bool) :
    ∀ (olds : List DVBlockRow) (m : List (JStr × JStr)) (n : Nat),
      ∀ r ∈ cloneRowsFrom jsonParse stringify newVid withRemap m n olds,
        r.versionId = newVid := by
  intro olds
  induction olds with
  | nil => intro m n r hr; cases hr
  | cons b bs ih =>
    intro m n r hr
    rcases List.mem_cons.mp hr with h | h
    · subst h; rfl
    · exact ih _ _ r h

theorem cloneRowsFrom_content (jsonParse : String → Option SettingsObj)
    (stringify : SettingsObj → String) (newVid : String) (withRemap : Bool) :
    ∀ (olds : List DVBlockRow) (m : List (JStr × JStr)) (n : Nat),
      (cloneRowsFrom jsonParse stringify newVid withRemap m n olds).map blockContent
        = olds.map blockContent := by
  intro olds
  induction olds with
  | nil => intro m n; rfl
  | cons b bs ih =>
    intro m n
    show blockContent (cloneRowOf _ _ _ _ _ b) :: (cloneRowsFrom _ _ _ _ _ _ bs).map _ = _
    rw [ih]
    rfl

theorem cloneRowsFrom_noRemap_parent (jsonParse : String → Option SettingsObj)
    (stringify : SettingsObj → String) (newVid : String) :
    ∀ (olds : List DVBlockRow) (m : List (JStr × JStr)) (n : Nat),
      ∀ r ∈ cloneRowsFrom jsonParse stringify newVid false m n olds,
        r.pp_parentblockid = none := by
  intro olds
  induction olds with
  | nil => intro m n r hr; cases hr
  | cons b bs ih =>
    intro m n r hr
    rcases List.mem_cons.mp hr with h | h
    · subst h; rfl
    · exact ih _ _ r h

theorem cloneRowsFrom_remap_parent (jsonParse : String → Option SettingsObj)
    (stringify : SettingsObj → String) (newVid : String) :
    ∀ (olds : List DVBlockRow) (m : List (JStr × JStr)) (n : Nat) (j : Nat) (b : DVBlockRow),
      olds[j]? = some b →
      ∃ r, (cloneRowsFrom jsonParse stringify newVid true m n olds)[j]? = some r ∧
        r.pp_parentblockid =
          (if jsTruthy (lookupId (m ++ pubIdMapFrom n (olds.take j)) b.pp_parentblockid)
            then lookupId (m ++ pubIdMapFrom n (olds.take j)) b.pp_parentblockid
            else none) := by
  intro olds
  induction olds with
  | nil => intro m n j b hb; simp at hb
  | cons b0 bs ih =>
    intro m n j b hb
    cases j with
    | zero =>
      rw [List.getElem?_cons_zero] at hb
      have hb0 : b0 = b := Option.some.inj hb
      subst hb0
      refine ⟨cloneRowOf jsonParse stringify newVid
          (if true = true then lookupId m b0.pp_parentblockid else none) n b0, ?_, ?_⟩
      · rw [show cloneRowsFrom jsonParse stringify newVid true m n (b0 :: bs)
            = cloneRowOf jsonParse stringify newVid
                (if true = true then lookupId m b0.pp_parentblockid else none) n b0
              :: cloneRowsFrom jsonParse stringify newVid true
                (m ++ [(b0.pp_blockid, some (genId n))]) (n + 1) bs from rfl]
        rw [List.getElem?_cons_zero]
      · simp [cloneRowOf, pubIdMapFrom]
    | succ j =>
      rw [List.getElem?_cons_succ] at hb
      obtain ⟨r, hr, hpar⟩ := ih (m ++ [(b0.pp_blockid, some (genId n))]) (n + 1) j b hb
      refine ⟨r, ?_, ?_⟩
      · show (cloneRowOf _ _ _ _ _ b0 :: cloneRowsFrom _ _ _ _ _ _ bs)[j + 1]? = some r
        rw [List.getElem?_cons_succ]
        exact hr
      · rw [hpar]
        have hmap : m ++ [(b0.pp_blockid, some (genId n))] ++ pubIdMapFrom (n + 1) (bs.take j)
            = m ++ pubIdMapFrom n ((b0 :: bs).take (j + 1)) := by
          rw [List.take_succ_cons]
          show _ = m ++ ((b0.pp_blockid, some (genId n)) :: pubIdMapFrom (n + 1) (bs.take j))
          rw [List.append_assoc]
          rfl
        rw [hmap]

theorem cloneFold_spec (jsonParse : String → Option SettingsObj)
    (stringify : SettingsObj → String) (newVid : String) (withRemap : Bool) :
    ∀ (olds : List DVBlockRow) (db0 : DB) (m0 : List (JStr × JStr)),
      (∀ b ∈ olds, ∃ o, parseJsOr jsonParse b.pp_data = Except.ok o) →
      olds.foldlM (cloneOne jsonParse stringify newVid withRemap) (db0, m0)
        = Except.ok
          ({ db0 with
              blocks := db0.blocks
                ++ cloneRowsFrom jsonParse stringify newVid withRemap m0 db0.nextId olds,
              nextId := db0.nextId + olds.length },
            m0 ++ pubIdMapFrom db0.nextId olds) := by
  intro olds
  induction olds with
  | nil =>
    intro db0 m0 _
    show Except.ok (db0, m0) = _
    simp [cloneRowsFrom, pubIdMapFrom]
  | cons b bs ih =>
    intro db0 m0 hp
    obtain ⟨o, ho⟩ := hp b (List.mem_cons_self b bs)
    have hpe : parseOrEmpty jsonParse b.pp_data = o := by
      unfold parseOrEmpty
      rw [ho]
    have hrow : (createBlock stringify db0
        { id := none, pageversionId := newVid,
          parentBlockId := if withRemap then lookupId m0 b.pp_parentblockid else none,
          name := b.pp_name, templateName := b.pp_type, blockType := b.pp_blocktype,
          sortOrder := b.pp_order, zone := b.pp_zone, settings := some o,
          isActive := some b.pp_isactive }).1
        = cloneRowOf jsonParse stringify newVid
            (if withRemap then lookupId m0 b.pp_parentblockid else none) db0.nextId b := by
      unfold createBlock cloneRowOf
      rw [hpe]
      rfl
    have hstep : cloneOne jsonParse stringify newVid withRemap (db0, m0) b
        = Except.ok
          ({ db0 with
              blocks := db0.blocks
                ++ [cloneRowOf jsonParse stringify newVid
                    (if withRemap then lookupId m0 b.pp_parentblockid else none) db0.nextId b],
              nextId := db0.nextId + 1 },
            m0 ++ [(b.pp_blockid, some (genId db0.nextId))]) := by
      unfold cloneOne
      rw [ho]
      rw [← hrow]
      rfl
    show Except.bind (cloneOne jsonParse stringify newVid withRemap (db0, m0) b)
        (fun s => List.foldlM (cloneOne jsonParse stringify newVid withRemap) s bs) = _
    rw [hstep]
    show List.foldlM (cloneOne jsonParse stringify newVid withRemap) _ bs = _
    rw [ih _ _ (fun x hx => hp x (List.mem_cons_of_mem b hx))]
    rw [show cloneRowsFrom jsonParse stringify newVid withRemap m0 db0.nextId (b :: bs)
        = cloneRowOf jsonParse stringify newVid
            (if withRemap then lookupId m0 b.pp_parentblockid else none) db0.nextId b
          :: cloneRowsFrom jsonParse stringify newVid withRemap
            (m0 ++ [(b.pp_blockid, some (genId db0.nextId))]) (db0.nextId + 1) bs from rfl]
    rw [show pubIdMapFrom db0.nextId (b :: bs)
        = (b.pp_blockid, some (genId db0.nextId)) :: pubIdMapFrom (db0.nextId + 1) bs
        from rfl]
    rw [List.length_cons]
    rw [show db0.nextId + (bs.length + 1) = db0.nextId + 1 + bs.length from by omega]
    rw [← show (db0.blocks
          ++ [cloneRowOf jsonParse stringify newVid
              (if withRemap then lookupId m0 b.pp_parentblockid else none) db0.nextId b])
          ++ cloneRowsFrom jsonParse stringify newVid withRemap
            (m0 ++ [(b.pp_blockid, some (genId db0.nextId))]) (db0.nextId + 1) bs
        = db0.blocks
          ++ (cloneRowOf jsonParse stringify newVid
              (if withRemap then lookupId m0 b.pp_parentblockid else none) db0.nextId b
            :: cloneRowsFrom jsonParse stringify newVid withRemap
              (m0 ++ [(b.pp_blockid, some (genId db0.nextId))]) (db0.nextId + 1) bs)
        from by rw [List.append_assoc]; rfl]
    rw [← show (m0 ++ [(b.pp_blockid, some (genId db0.nextId))])
          ++ pubIdMapFrom (db0.nextId + 1) bs
        = m0 ++ ((b.pp_blockid, some (genId db0.nextId)) :: pubIdMapFrom (db0.nextId + 1) bs)
        from by rw [List.append_assoc]; rfl]

theorem applyVersionUpdate_archive (stringify : SettingsObj → String) (now : String)
    (v : VersionRow) :
    applyVersionUpdate stringify now ⟨none, some 3, none⟩ v = archiveRow v := by
  unfold applyVersionUpdate archiveRow
  norm_num

/-- The complete result of `publishClone` when every draft block's
stored settings parse: starting from the archive-updated version table
and the freshly created Published version row, the root clones and the
child clones are appended to the block table and the id counter
advances by the number of draft blocks. -/
theorem publishClone_spec (jsonParse : String → Option SettingsObj)
    (stringify : SettingsObj → String) (db : DB) (pageId draftVersionId now : String)
    (draft : VersionRow) (vs : SettingsObj)
    (hparse : ∀ b ∈ getBlocks db draftVersionId,
      ∃ o, parseJsOr jsonParse b.pp_data = Except.ok o) :
    publishClone jsonParse stringify db pageId draftVersionId now draft vs
      = Except.ok
        ({ pages := (pubCV stringify db pageId now draft vs).2.pages,
           versions := (pubCV stringify db pageId now draft vs).2.versions,
           blocks := (pubCV stringify db pageId now draft vs).2.blocks
             ++ cloneRowsFrom jsonParse stringify
               (pubCV stringify db pageId now draft vs).1.pp_versionid false []
               (pubCV stringify db pageId now draft vs).2.nextId
               (draftRootsOf db draftVersionId)
             ++ cloneRowsFrom jsonParse stringify
               (pubCV stringify db pageId now draft vs).1.pp_versionid true
               ([] ++ pubIdMapFrom (pubCV stringify db pageId now draft vs).2.nextId
                 (draftRootsOf db draftVersionId))
               ((pubCV stringify db pageId now draft vs).2.nextId
                 + (draftRootsOf db draftVersionId).length)
               (draftChildrenOf db draftVersionId),
           nextId := (pubCV stringify db pageId now draft vs).2.nextId
             + (draftRootsOf db draftVersionId).length
             + (draftChildrenOf db draftVersionId).length },
         (pubCV stringify db pageId now draft vs).1.pp_versionid) := by
  have hproots : ∀ b ∈ draftRootsOf db draftVersionId,
      ∃ o, parseJsOr jsonParse b.pp_data = Except.ok o :=
    fun b hb => hparse b (List.mem_of_mem_filter hb)
  have hpchildren : ∀ b ∈ draftChildrenOf db draftVersionId,
      ∃ o, parseJsOr jsonParse b.pp_data = Except.ok o :=
    fun b hb => hparse b (List.mem_of_mem_filter hb)
  have h0 : publishClone jsonParse stringify db pageId draftVersionId now draft vs
      = Except.bind
          ((draftRootsOf db draftVersionId).foldlM
            (cloneOne jsonParse stringify
              (pubCV stringify db pageId now draft vs).1.pp_versionid false)
            ((pubCV stringify db pageId now draft vs).2, ([] : List (JStr × JStr))))
          (fun r1 =>
            Except.bind
              ((draftChildrenOf db draftVersionId).foldlM
                (cloneOne jsonParse stringify
                  (pubCV stringify db pageId now draft vs).1.pp_versionid true) r1)
              (fun r2 =>
                Except.ok (r2.1, (pubCV stringify db pageId now draft vs).1.pp_versionid))) := rfl
  rw [h0]
  rw [cloneFold_spec jsonParse stringify
    (pubCV stringify db pageId now draft vs).1.pp_versionid false
    (draftRootsOf db draftVersionId) (pubCV stringify db pageId now draft vs).2 [] hproots]
  show Except.bind
      ((draftChildrenOf db draftVersionId).foldlM
        (cloneOne jsonParse stringify
          (pubCV stringify db pageId now draft vs).1.pp_versionid true)
        ({ (pubCV stringify db pageId now draft vs).2 with
            blocks := (pubCV stringify db pageId now draft vs).2.blocks
              ++ cloneRowsFrom jsonParse stringify
                (pubCV stringify db pageId now draft vs).1.pp_versionid false []
                (pubCV stringify db pageId now draft vs).2.nextId
                (draftRootsOf db draftVersionId),
            nextId := (pubCV stringify db pageId now draft vs).2.nextId
              + (draftRootsOf db draftVersionId).length },
          [] ++ pubIdMapFrom (pubCV stringify db pageId now draft vs).2.nextId
            (draftRootsOf db draftVersionId)))
      (fun r2 => Except.ok (r2.1, (pubCV stringify db pageId now draft vs).1.pp_versionid))
    = _
  rw [cloneFold_spec jsonParse stringify
    (pubCV stringify db pageId now draft vs).1.pp_versionid true
    (draftChildrenOf db draftVersionId)
    ({ (pubCV stringify db pageId now draft vs).2 with
        blocks := (pubCV stringify db pageId now draft vs).2.blocks
          ++ cloneRowsFrom jsonParse stringify
            (pubCV stringify db pageId now draft vs).1.pp_versionid false []
            (pubCV stringify db pageId now draft vs).2.nextId
            (draftRootsOf db draftVersionId),
        nextId := (pubCV stringify db pageId now draft vs).2.nextId
          + (draftRootsOf db draftVersionId).length })
    ([] ++ pubIdMapFrom (pubCV stringify db pageId now draft vs).2.nextId
      (draftRootsOf db draftVersionId)) hpchildren]
  rfl

theorem pubBaseDB_blocks (stringify : SettingsObj → String) (db : DB) (pageId now : String) :
    (pubBaseDB stringify db pageId now).blocks = db.blocks := by
  unfold pubBaseDB
  cases getPublishedPageVersion db pageId <;> rfl

theorem pubBaseDB_nextId (stringify : SettingsObj → String) (db : DB) (pageId now : String) :
    (pubBaseDB stringify db pageId now).nextId = db.nextId := by
  unfold pubBaseDB
  cases getPublishedPageVersion db pageId <;> rfl

theorem pubCV_versions (stringify : SettingsObj → String) (db : DB) (pageId now : String)
    (draft : VersionRow) (vs : SettingsObj) :
    (pubCV stringify db pageId now draft vs).2.versions
      = (pubBaseDB stringify db pageId now).versions
        ++ [(pubCV stringify db pageId now draft vs).1] := rfl

theorem pubCV_blocks (stringify : SettingsObj → String) (db : DB) (pageId now : String)
    (draft : VersionRow) (vs : SettingsObj) :
    (pubCV stringify db pageId now draft vs).2.blocks = db.blocks := by
  show (pubBaseDB stringify db pageId now).blocks = db.blocks
  exact pubBaseDB_blocks stringify db pageId now

theorem pubCV_nextId (stringify : SettingsObj → String) (db : DB) (pageId now : String)
    (draft : VersionRow) (vs : SettingsObj) :
    (pubCV stringify db pageId now draft vs).2.nextId = db.nextId + 1 := by
  show (pubBaseDB stringify db pageId now).nextId + 1 = db.nextId + 1
  rw [pubBaseDB_nextId]

theorem pubCV_row_pageId (stringify : SettingsObj → String) (db : DB) (pageId now : String)
    (draft : VersionRow) (vs : SettingsObj) :
    (pubCV stringify db pageId now draft vs).1.pageId = pageId := rfl

theorem pubCV_row_status (stringify : SettingsObj → String) (db : DB) (pageId now : String)
    (draft : VersionRow) (vs : SettingsObj) :
    (pubCV stringify db pageId now draft vs).1.pp_status = 2 := rfl

theorem pubCV_row_statecode (stringify : SettingsObj → String) (db : DB) (pageId now : String)
    (draft : VersionRow) (vs : SettingsObj) :
    (pubCV stringify db pageId now draft vs).1.statecode = 0 := rfl

theorem len_le_one_eq {α : Type} {l : List α} {a b : α}
    (h : l.length ≤ 1) (ha : a ∈ l) (hb : b ∈ l) : a = b := by
  cases l with
  | nil => cases ha
  | cons x xs =>
    cases xs with
    | nil =>
      rw [List.mem_singleton] at ha hb
      rw [ha, hb]
    | cons y ys =>
      simp only [List.length_cons] at h
      omega

theorem length_filter_partition {α : Type} (p : α → Bool) (l : List α) :
    (l.filter (fun a => !p a)).length + (l.filter p).length = l.length := by
  induction l with
  | nil => rfl
  | cons x xs ih =>
    simp only [List.filter_cons]
    by_cases h : p x = true
    · rw [if_neg (by simp [h]), if_pos h]
      simp only [List.length_cons]
      omega
    · rw [if_pos (by simp [h]), if_neg h]
      simp only [List.length_cons]
      omega

theorem pubPick_mem (db : DB) (pageId : String) (e : VersionRow)
    (h : getPublishedPageVersion db pageId = some e) :
    e ∈ db.versions.filter
      (fun v => v.pageId = pageId && v.pp_status = 2 && v.statecode = 0) := by
  unfold getPublishedPageVersion at h
  have h1 := List.mem_of_mem_head? (Option.mem_def.mpr h)
  exact (mem_sortByLe _ _ e).mp h1

theorem pubPick_none (db : DB) (pageId : String)
    (h : getPublishedPageVersion db pageId = none) :
    db.versions.filter
      (fun v => v.pageId = pageId && v.pp_status = 2 && v.statecode = 0) = [] := by
  unfold getPublishedPageVersion at h
  rw [List.head?_eq_none_iff] at h
  have hp := sortByLe_perm (fun a b => b.pp_versionnumber ≤ a.pp_versionnumber)
    (db.versions.filter
      (fun v => v.pageId = pageId && v.pp_status = 2 && v.statecode = 0))
  rw [h] at hp
  exact (hp.symm).eq_nil

/-- After step 1 of `publishPage`, no active version row of the page is
still Published (assuming the at-most-one-Published invariant held). -/
theorem pubBaseDB_no_published (stringify : SettingsObj → String) (db : DB)
    (pageId now : String)
    (hpub1 : (db.versions.filter
      (fun v => v.pageId = pageId && v.pp_status = 2 && v.statecode = 0)).length ≤ 1) :
    (pubBaseDB stringify db pageId now).versions.filter
      (fun v => v.pageId = pageId && v.pp_status = 2 && v.statecode = 0) = [] := by
  cases hep : getPublishedPageVersion db pageId with
  | none =>
    have hnil := pubPick_none db pageId hep
    unfold pubBaseDB
    rw [hep]
    exact hnil
  | some e =>
    have hemem := pubPick_mem db pageId e hep
    unfold pubBaseDB
    rw [hep]
    show (db.versions.map
        (fun v => if v.pp_versionid = e.pp_versionid
          then applyVersionUpdate stringify now ⟨none, some 3, none⟩ v else v)).filter
        (fun v => v.pageId = pageId && v.pp_status = 2 && v.statecode = 0) = []
    rw [List.filter_eq_nil_iff]
    intro v hv
    obtain ⟨u, hu, hfu⟩ := List.mem_map.mp hv
    by_cases hid : u.pp_versionid = e.pp_versionid
    · rw [if_pos hid, applyVersionUpdate_archive] at hfu
      rw [← hfu]
      simp [archiveRow]
    · rw [if_neg hid] at hfu
      rw [← hfu]
      intro hpred
      have humem : u ∈ db.versions.filter
          (fun v => v.pageId = pageId && v.pp_status = 2 && v.statecode = 0) :=
        List.mem_filter.mpr ⟨hu, hpred⟩
      exact hid (by rw [len_le_one_eq hpub1 humem hemem])

/-- Step 1 of `publishPage` archives the Published row: its image in
the updated version table is exactly `archiveRow` of it. -/
theorem pubBaseDB_archives (stringify : SettingsObj → String) (db : DB) (pageId now : String)
    (hpub1 : (db.versions.filter
      (fun v => v.pageId = pageId && v.pp_status = 2 && v.statecode = 0)).length ≤ 1)
    (e : VersionRow) (he : e ∈ db.versions)
    (h1 : e.pageId = pageId) (h2 : e.pp_status = 2) (h3 : e.statecode = 0) :
    archiveRow e ∈ (pubBaseDB stringify db pageId now).versions := by
  have hef : e ∈ db.versions.filter
      (fun v => v.pageId = pageId && v.pp_status = 2 && v.statecode = 0) :=
    List.mem_filter.mpr ⟨he, by simp [h1, h2, h3]⟩
  cases hf : db.versions.filter
      (fun v => v.pageId = pageId && v.pp_status = 2 && v.statecode = 0) with
  | nil =>
    rw [hf] at hef
    cases hef
  | cons x xs =>
    have hxs : xs = [] := by
      rw [hf] at hpub1
      simp only [List.length_cons] at hpub1
      exact List.eq_nil_of_length_eq_zero (by omega)
    subst hxs
    rw [hf] at hef
    have hex : e = x := List.mem_singleton.mp hef
    subst hex
    have hep : getPublishedPageVersion db pageId = some e := by
      unfold getPublishedPageVersion
      rw [hf]
      rfl
    unfold pubBaseDB
    rw [hep]
    show archiveRow e ∈ db.versions.map
      (fun v => if v.pp_versionid = e.pp_versionid
        then applyVersionUpdate stringify now ⟨none, some 3, none⟩ v else v)
    refine List.mem_map.mpr ⟨e, he, ?_⟩
    rw [if_pos rfl, applyVersionUpdate_archive]

/-- C7: for every state in which the full-clone publish workflow
completes (the draft version exists, its stored settings and every
draft block's stored settings parse, and at most one Published version
row is active for the page — the invariant the workflow maintains):
the previously Published row (if any) is updated to Archived, exactly
one version row with status Published is active for the page
afterwards — the freshly created one — and every draft block is
re-created under the new version (the root-level clones appended
before the child clones, contents preserved), with each child clone's
parent link remapped through the generated old-id → new-id table built
by the two passes. -/
theorem C7_publish_full_clone (jsonParse : String → Option SettingsObj)
    (stringify : SettingsObj → String) (db : DB) (pageId draftVersionId now : String)
    (draft : VersionRow) (vs : SettingsObj)
    (hdraft : findVersion db draftVersionId = some draft)
    (hvs : parseJsOr jsonParse draft.pp_settings = Except.ok vs)
    (hparse : ∀ b ∈ getBlocks db draftVersionId,
      ∃ o, parseJsOr jsonParse b.pp_data = Except.ok o)
    (hpub1 : (db.versions.filter
      (fun v => v.pageId = pageId && v.pp_status = 2 && v.statecode = 0)).length ≤ 1) :
    ∃ (db2 : DB) (newVid : String) (newRow : VersionRow)
      (rootClones childClones : List DVBlockRow),
      publishPage jsonParse stringify db pageId draftVersionId now
        = Except.ok (db2, newVid) ∧
      db2.versions = (pubBaseDB stringify db pageId now).versions ++ [newRow] ∧
      db2.blocks = db.blocks ++ rootClones ++ childClones ∧
      newRow.pp_versionid = newVid ∧
      (newRow.pp_status = 2 ∧ newRow.pageId = pageId ∧ newRow.statecode = 0) ∧
      (∀ e ∈ db.versions, e.pageId = pageId → e.pp_status = 2 → e.statecode = 0 →
        archiveRow e ∈ db2.versions) ∧
      db2.versions.filter
        (fun v => v.pageId = pageId && v.pp_status = 2 && v.statecode = 0) = [newRow] ∧
      rootClones.length + childClones.length = (getBlocks db draftVersionId).length ∧
      rootClones.map blockContent = (draftRootsOf db draftVersionId).map blockContent ∧
      childClones.map blockContent = (draftChildrenOf db draftVersionId).map blockContent ∧
      (∀ r ∈ rootClones, r.versionId = newVid ∧ r.pp_parentblockid = none) ∧
      (∀ r ∈ childClones, r.versionId = newVid) ∧
      (∀ (j : Nat) (b : DVBlockRow), (draftChildrenOf db draftVersionId)[j]? = some b →
        ∃ r, childClones[j]? = some r ∧
          r.pp_parentblockid =
            (if jsTruthy (lookupId
                (pubIdMapFrom (db.nextId + 1)
                  (draftRootsOf db draftVersionId
                    ++ (draftChildrenOf db draftVersionId).take j))
                b.pp_parentblockid)
              then lookupId
                (pubIdMapFrom (db.nextId + 1)
                  (draftRootsOf db draftVersionId
                    ++ (draftChildrenOf db draftVersionId).take j))
                b.pp_parentblockid
              else none)) := by
  have hrun : publishPage jsonParse stringify db pageId draftVersionId now
      = publishClone jsonParse stringify db pageId draftVersionId now draft vs := by
    unfold publishPage
    rw [hdraft]
    show Except.bind (parseJsOr jsonParse draft.pp_settings)
        (fun vs1 => publishClone jsonParse stringify db pageId draftVersionId now draft vs1) = _
    rw [hvs]
    rfl
  have hpc := publishClone_spec jsonParse stringify db pageId draftVersionId now draft vs hparse
  refine ⟨_, (pubCV stringify db pageId now draft vs).1.pp_versionid,
    (pubCV stringify db pageId now draft vs).1,
    cloneRowsFrom jsonParse stringify (pubCV stringify db pageId now draft vs).1.pp_versionid
      false [] (pubCV stringify db pageId now draft vs).2.nextId
      (draftRootsOf db draftVersionId),
    cloneRowsFrom jsonParse stringify (pubCV stringify db pageId now draft vs).1.pp_versionid
      true
      ([] ++ pubIdMapFrom (pubCV stringify db pageId now draft vs).2.nextId
        (draftRootsOf db draftVersionId))
      ((pubCV stringify db pageId now draft vs).2.nextId
        + (draftRootsOf db draftVersionId).length)
      (draftChildrenOf db draftVersionId),
    hrun.trans hpc, pubCV_versions stringify db pageId now draft vs, ?_, rfl,
    ⟨pubCV_row_status stringify db pageId now draft vs,
      pubCV_row_pageId stringify db pageId now draft vs,
      pubCV_row_statecode stringify db pageId now draft vs⟩,
    ?_, ?_, ?_, ?_, ?_, ?_, ?_, ?_⟩
  · show (pubCV stringify db pageId now draft vs).2.blocks ++ _ ++ _ = _
    rw [pubCV_blocks]
  · intro e he h1 h2 h3
    show archiveRow e ∈ (pubCV stringify db pageId now draft vs).2.versions
    rw [pubCV_versions]
    exact List.mem_append_left _
      (pubBaseDB_archives stringify db pageId now hpub1 e he h1 h2 h3)
  · show ((pubCV stringify db pageId now draft vs).2.versions).filter _ = _
    rw [pubCV_versions, List.filter_append,
      pubBaseDB_no_published stringify db pageId now hpub1]
    rw [show List.filter (fun v => v.pageId = pageId && v.pp_status = 2 && v.statecode = 0)
        [(pubCV stringify db pageId now draft vs).1]
        = [(pubCV stringify db pageId now draft vs).1] from by
      simp [pubCV_row_pageId, pubCV_row_status, pubCV_row_statecode]]
    rw [List.nil_append]
  · rw [cloneRowsFrom_length, cloneRowsFrom_length]
    exact length_filter_partition (fun b => jsTruthy b.pp_parentblockid)
      (getBlocks db draftVersionId)
  · exact cloneRowsFrom_content jsonParse stringify _ false _ _ _
  · exact cloneRowsFrom_content jsonParse stringify _ true _ _ _
  · intro r hr
    exact ⟨cloneRowsFrom_versionId jsonParse stringify _ false _ _ _ r hr,
      cloneRowsFrom_noRemap_parent jsonParse stringify _ _ _ _ r hr⟩
  · intro r hr
    exact cloneRowsFrom_versionId jsonParse stringify _ true _ _ _ r hr
  · intro j b hb
    obtain ⟨r, hr, hpar⟩ := cloneRowsFrom_remap_parent jsonParse stringify
      (pubCV stringify db pageId now draft vs).1.pp_versionid
      (draftChildrenOf db draftVersionId)
      ([] ++ pubIdMapFrom (pubCV stringify db pageId now draft vs).2.nextId
        (draftRootsOf db draftVersionId))
      ((pubCV stringify db pageId now draft vs).2.nextId
        + (draftRootsOf db draftVersionId).length) j b hb
    refine ⟨r, hr, ?_⟩
    rw [hpar]
    rw [show ([] ++ pubIdMapFrom (pubCV stringify db pageId now draft vs).2.nextId
          (draftRootsOf db draftVersionId))
        ++ pubIdMapFrom ((pubCV stringify db pageId now draft vs).2.nextId
          + (draftRootsOf db draftVersionId).length)
          ((draftChildrenOf db draftVersionId).take j)
        = pubIdMapFrom (db.nextId + 1)
          (draftRootsOf db draftVersionId ++ (draftChildrenOf db draftVersionId).take j) from by
      rw [List.nil_append, pubCV_nextId, pubIdMapFrom_append]]

/-- Witness for C7 at `publishDB`: a page with a Draft version (one
root block, one child block) and a previously Published version. -/
theorem C7_witness :
    ∃ (db2 : DB) (newVid : String) (newRow : VersionRow)
      (rootClones childClones : List DVBlockRow),
      publishPage okParse exampleStringify publishDB "p1" "v1" "t1"
        = Except.ok (db2, newVid) ∧
      archiveRow examplePublished ∈ db2.versions ∧
      db2.versions.filter
        (fun v => v.pageId = "p1" && v.pp_status = 2 && v.statecode = 0) = [newRow] ∧
      db2.blocks = publishDB.blocks ++ rootClones ++ childClones ∧
      rootClones.length + childClones.length = (getBlocks publishDB "v1").length := by
  obtain ⟨db2, newVid, newRow, rc, cc, hrun, hvers, hblocks, hnvid, hpub, harch, hone,
      hlen, hrc, hcc, hrv, hcv, hremap⟩ :=
    C7_publish_full_clone okParse exampleStringify publishDB "p1" "v1" "t1" exampleDraft []
      rfl rfl
      (by
        intro b hb
        refine ⟨[], ?_⟩
        rw [show getBlocks publishDB "v1"
            = [exampleBlockRow "b1" "v1" 0,
              { exampleBlockRow "b2" "v1" 1 with pp_parentblockid := some "b1" }] from rfl] at hb
        rcases List.mem_cons.mp hb with h | hb2
        · subst h; rfl
        · rcases List.mem_cons.mp hb2 with h | h
          · subst h; rfl
          · cases h)
      (by decide)
  exact ⟨db2, newVid, newRow, rc, cc, hrun,
    harch examplePublished (by decide) rfl rfl rfl, hone, hblocks, hlen⟩

/-- Witness for C8 at a concrete page with 2 versions of 3 active
blocks each. -/
theorem C8_witness :
    (versionRowsOf cascadeDB "p1").length = 2 ∧
    (∀ v ∈ versionRowsOf cascadeDB "p1",
      (blockRowsOf cascadeDB v.pp_versionid).length = 3) ∧
    ((pmDeletePage cascadeDB "p1").2.filter Req.isDelBlock).length = 6 ∧
    ((pmDeletePage cascadeDB "p1").2.filter Req.isDelVersion).length = 2 ∧
    ((pmDeletePage cascadeDB "p1").2.filter Req.isDelPage).length = 1 := by
  obtain ⟨_, _, _, _, -, -, -, -, -, -, h6, h2, h1⟩ :=
    C8_cascading_delete cascadeDB "p1" (by decide) (by decide) (by decide) (by decide)
  exact ⟨by decide, by decide, h6, h2, h1⟩

/-! ## C1: flatten/build round trip -/

theorem jsOr_truthy (a b : JStr) (h : jsTruthy a = true) : jsOr a b = a := by
  unfold jsOr
  rw [h]
  rfl

theorem keyOf_dropSort (b : FlatBlock) : keyOf (dropSort b) = keyOf b := rfl

theorem parentOf_dropSort (b : FlatBlock) : parentOf (dropSort b) = parentOf b := rfl

theorem filter_map_dropSort (q : FlatBlock → Bool) (hq : ∀ b, q (dropSort b) = q b) :
    ∀ l : List FlatBlock, (l.filter q).map dropSort = (l.map dropSort).filter q := by
  intro l
  induction l with
  | nil => rfl
  | cons b bs ih =>
    simp only [List.map_cons, List.filter_cons, hq b]
    by_cases h : q b = true
    · rw [if_pos h, if_pos h, List.map_cons, ih]
    · rw [if_neg h, if_neg h, ih]

mutual
theorem flattenNode_dropSort (c : BlockNode) (p : JStr) (n : Nat) :
    (flattenNode c p n).1.map dropSort = specFlatNode c p := by
  cases c with
  | node d cs =>
    have h := flattenChildren_dropSort cs d.id (n + 1)
    simp only [flattenNode, specFlatNode, List.map_cons]
    rw [h]
    rfl

theorem flattenChildren_dropSort (cs : List BlockNode) (p : JStr) (n : Nat) :
    (flattenChildren cs p n).1.map dropSort = specFlatForest cs p := by
  cases cs with
  | nil => simp [flattenChildren, specFlatForest]
  | cons c cs' =>
    have h1 := flattenNode_dropSort c p n
    have h2 := flattenChildren_dropSort cs' p (flattenNode c p n).2
    simp only [flattenChildren, specFlatForest, List.map_append]
    rw [h1, h2]
end

theorem flattenBlockTree_dropSort (F : List BlockNode) :
    (flattenBlockTree F).map dropSort = specFlatForest F none := by
  unfold flattenBlockTree
  exact flattenChildren_dropSort F none 0

mutual
theorem specFlatNode_data (c : BlockNode) (p : JStr) :
    (specFlatNode c p).map (fun b => b.data) = (nodesOfNode c).map BlockNode.data := by
  cases c with
  | node d cs =>
    have h := specFlatForest_data cs d.id
    simp only [specFlatNode, nodesOfNode, List.map_cons]
    rw [h]
    rfl

theorem specFlatForest_data (cs : List BlockNode) (p : JStr) :
    (specFlatForest cs p).map (fun b => b.data) = (nodesOfForest cs).map BlockNode.data := by
  cases cs with
  | nil => simp [specFlatForest, nodesOfForest]
  | cons c cs' =>
    have h1 := specFlatNode_data c p
    have h2 := specFlatForest_data cs' p
    simp only [specFlatForest, nodesOfForest, List.map_append]
    rw [h1, h2]
end

theorem childRecs_append (l1 l2 : List FlatBlock) (k : JStr) :
    childRecs (l1 ++ l2) k = childRecs l1 k ++ childRecs l2 k := by
  unfold childRecs
  exact List.filter_append _ _

theorem childRecs_cons_of_neg (b : FlatBlock) (l : List FlatBlock) (k : JStr)
    (h : (jsTruthy (parentOf b) && parentOf b = k) = false) :
    childRecs (b :: l) k = childRecs l k := by
  unfold childRecs
  exact List.filter_cons_of_neg (by simp [h])

theorem childRecs_cons_of_pos (b : FlatBlock) (l : List FlatBlock) (k : JStr)
    (h : (jsTruthy (parentOf b) && parentOf b = k) = true) :
    childRecs (b :: l) k = b :: childRecs l k := by
  unfold childRecs
  exact List.filter_cons_of_pos (by simp [h])

theorem parentOf_specRec (d : BlockData) (p : JStr) :
    parentOf (specRec d p) = jsOr p d.pp_parentblockid := rfl

/-- An interior record carries its (truthy) structural parent id, so it
never matches a different key. -/
theorem qk_specRec_truthy_ne (d : BlockData) (p k : JStr)
    (hp : jsTruthy p = true) (hpk : p ≠ k) :
    (jsTruthy (parentOf (specRec d p)) && parentOf (specRec d p) = k) = false := by
  rw [parentOf_specRec, jsOr_truthy p d.pp_parentblockid hp]
  simp [hpk]

/-- A record whose resolved parent reference is falsy matches no key. -/
theorem qk_specRec_falsy (d : BlockData) (p k : JStr)
    (hfal : jsTruthy (jsOr p d.pp_parentblockid) = false) :
    (jsTruthy (parentOf (specRec d p)) && parentOf (specRec d p) = k) = false := by
  rw [parentOf_specRec]
  simp [hfal]

/-- A record emitted under the looked-up (truthy) key matches it. -/
theorem qk_specRec_at (d : BlockData) (k : JStr) (hk : jsTruthy k = true) :
    (jsTruthy (parentOf (specRec d k)) && parentOf (specRec d k) = k) = true := by
  rw [parentOf_specRec, jsOr_truthy k d.pp_parentblockid hk]
  simp [hk]

mutual
/-- No record of a subtree emitted under a truthy parent id different
from `k` resolves its parent to `k`, provided no node of the subtree
has id `k`. -/
theorem childRecs_specNode_ne (k : JStr) (c : BlockNode) (p : JStr)
    (hp : jsTruthy p = true) (hpk : p ≠ k)
    (hids : ∀ m ∈ nodesOfNode c, jsTruthy m.data.id = true)
    (hne : ∀ m ∈ nodesOfNode c, m.data.id ≠ k) :
    childRecs (specFlatNode c p) k = [] := by
  cases c with
  | node d cs =>
    have hself : BlockNode.node d cs ∈ nodesOfNode (BlockNode.node d cs) := by
      simp only [nodesOfNode]
      exact List.mem_cons_self _ _
    have hdid : jsTruthy d.id = true := hids _ hself
    have hdne : d.id ≠ k := hne _ hself
    have h2 := childRecs_specForest_ne k cs d.id hdid hdne
      (fun m hm => hids m (by simp only [nodesOfNode]; exact List.mem_cons_of_mem _ hm))
      (fun m hm => hne m (by simp only [nodesOfNode]; exact List.mem_cons_of_mem _ hm))
    simp only [specFlatNode]
    rw [childRecs_cons_of_neg _ _ _ (qk_specRec_truthy_ne d p k hp hpk), h2]

theorem childRecs_specForest_ne (k : JStr) (cs : List BlockNode) (p : JStr)
    (hp : jsTruthy p = true) (hpk : p ≠ k)
    (hids : ∀ m ∈ nodesOfForest cs, jsTruthy m.data.id = true)
    (hne : ∀ m ∈ nodesOfForest cs, m.data.id ≠ k) :
    childRecs (specFlatForest cs p) k = [] := by
  cases cs with
  | nil =>
    simp only [specFlatForest]
    rfl
  | cons c cs' =>
    have h1 := childRecs_specNode_ne k c p hp hpk
      (fun m hm => hids m (by simp only [nodesOfForest]; exact List.mem_append_left _ hm))
      (fun m hm => hne m (by simp only [nodesOfForest]; exact List.mem_append_left _ hm))
    have h2 := childRecs_specForest_ne k cs' p hp hpk
      (fun m hm => hids m (by simp only [nodesOfForest]; exact List.mem_append_right _ hm))
      (fun m hm => hne m (by simp only [nodesOfForest]; exact List.mem_append_right _ hm))
    simp only [specFlatForest]
    rw [childRecs_append, h1, h2]
    rfl
end

/-- The records of a forest emitted directly under parent key `k` are
exactly its top-level records, in order, provided no node of the forest
itself has id `k`. -/
theorem childRecs_specForest_at (k : JStr) (hk : jsTruthy k = true) :
    ∀ cs : List BlockNode,
      (∀ m ∈ nodesOfForest cs, jsTruthy m.data.id = true) →
      (∀ m ∈ nodesOfForest cs, m.data.id ≠ k) →
      childRecs (specFlatForest cs k) k = cs.map (fun c => specRec c.data k) := by
  intro cs
  induction cs with
  | nil =>
    intro _ _
    simp only [specFlatForest, List.map_nil]
    rfl
  | cons c cs' ih =>
    intro hids hne
    cases c with
    | node d cs2 =>
      have hself : BlockNode.node d cs2 ∈ nodesOfNode (BlockNode.node d cs2) := by
        simp only [nodesOfNode]
        exact List.mem_cons_self _ _
      have hmemL : ∀ m ∈ nodesOfNode (BlockNode.node d cs2),
          m ∈ nodesOfForest (BlockNode.node d cs2 :: cs') := fun m hm => by
        simp only [nodesOfForest]
        exact List.mem_append_left _ hm
      have hmemSub : ∀ m ∈ nodesOfForest cs2,
          m ∈ nodesOfNode (BlockNode.node d cs2) := fun m hm => by
        simp only [nodesOfNode]
        exact List.mem_cons_of_mem _ hm
      have hdid : jsTruthy d.id = true := hids _ (hmemL _ hself)
      have hdne : d.id ≠ k := hne _ (hmemL _ hself)
      have hsub := childRecs_specForest_ne k cs2 d.id hdid hdne
        (fun m hm => hids m (hmemL _ (hmemSub _ hm)))
        (fun m hm => hne m (hmemL _ (hmemSub _ hm)))
      have htail := ih
        (fun m hm => hids m (by simp only [nodesOfForest]; exact List.mem_append_right _ hm))
        (fun m hm => hne m (by simp only [nodesOfForest]; exact List.mem_append_right _ hm))
      simp only [specFlatForest, specFlatNode, List.map_cons]
      rw [childRecs_append, childRecs_cons_of_pos _ _ _ (qk_specRec_at d k hk), hsub, htail]
      rfl

mutual
/-- Inside a subtree (emitted under a truthy foreign parent id) that
contains the node `n`, the records resolving their parent to `n`'s id
are exactly `n`'s children records, in order. -/
theorem childRecs_specNode_mem (n : BlockNode) (c : BlockNode) (p : JStr)
    (hp : jsTruthy p = true) (hpk : p ≠ n.data.id)
    (hids : ∀ m ∈ nodesOfNode c, jsTruthy m.data.id = true)
    (hnd : ((nodesOfNode c).map (fun m => m.data.id)).Nodup)
    (hn : n ∈ nodesOfNode c) :
    childRecs (specFlatNode c p) n.data.id
      = n.children.map (fun q => specRec q.data n.data.id) := by
  cases c with
  | node d cs2 =>
    have hself : BlockNode.node d cs2 ∈ nodesOfNode (BlockNode.node d cs2) := by
      simp only [nodesOfNode]
      exact List.mem_cons_self _ _
    have hmemSub : ∀ m ∈ nodesOfForest cs2, m ∈ nodesOfNode (BlockNode.node d cs2) :=
      fun m hm => by simp only [nodesOfNode]; exact List.mem_cons_of_mem _ hm
    have hdid : jsTruthy d.id = true := hids _ hself
    have hndc : d.id ∉ (nodesOfForest cs2).map (fun m => m.data.id) ∧
        ((nodesOfForest cs2).map (fun m => m.data.id)).Nodup := by
      simp only [nodesOfNode, List.map_cons, BlockNode.data] at hnd
      exact List.nodup_cons.mp hnd
    simp only [nodesOfNode] at hn
    rcases List.mem_cons.mp hn with heq | hdeep
    · subst heq
      have hpk2 : p ≠ d.id := hpk
      have hne2 : ∀ m ∈ nodesOfForest cs2, m.data.id ≠ d.id := by
        intro m hm hcontra
        exact hndc.1 (hcontra ▸ List.mem_map_of_mem (fun m => m.data.id) hm)
      show childRecs (specFlatNode (BlockNode.node d cs2) p) d.id
        = cs2.map (fun q => specRec q.data d.id)
      simp only [specFlatNode]
      rw [childRecs_cons_of_neg _ _ _ (qk_specRec_truthy_ne d p d.id hp hpk2)]
      exact childRecs_specForest_at d.id hdid cs2
        (fun m hm => hids m (hmemSub _ hm)) hne2
    · have hnid : n.data.id ∈ (nodesOfForest cs2).map (fun m => m.data.id) :=
        List.mem_map_of_mem (fun m => m.data.id) hdeep
      have hpk2 : d.id ≠ n.data.id := fun hcontra => hndc.1 (hcontra ▸ hnid)
      simp only [specFlatNode]
      rw [childRecs_cons_of_neg _ _ _ (qk_specRec_truthy_ne d p n.data.id hp hpk)]
      exact childRecs_specForest_mem n cs2 d.id hdid hpk2
        (fun m hm => hids m (hmemSub _ hm)) hndc.2 hdeep

theorem childRecs_specForest_mem (n : BlockNode) (cs : List BlockNode) (p : JStr)
    (hp : jsTruthy p = true) (hpk : p ≠ n.data.id)
    (hids : ∀ m ∈ nodesOfForest cs, jsTruthy m.data.id = true)
    (hnd : ((nodesOfForest cs).map (fun m => m.data.id)).Nodup)
    (hn : n ∈ nodesOfForest cs) :
    childRecs (specFlatForest cs p) n.data.id
      = n.children.map (fun q => specRec q.data n.data.id) := by
  cases cs with
  | nil =>
    simp only [nodesOfForest] at hn
    cases hn
  | cons c cs' =>
    have hsplit : ((nodesOfNode c).map (fun m => m.data.id)).Nodup ∧
        ((nodesOfForest cs').map (fun m => m.data.id)).Nodup ∧
        ((nodesOfNode c).map (fun m => m.data.id)).Disjoint
          ((nodesOfForest cs').map (fun m => m.data.id)) := by
      simp only [nodesOfForest, List.map_append] at hnd
      exact List.nodup_append.mp hnd
    have hidsL : ∀ m ∈ nodesOfNode c, jsTruthy m.data.id = true := fun m hm =>
      hids m (by simp only [nodesOfForest]; exact List.mem_append_left _ hm)
    have hidsR : ∀ m ∈ nodesOfForest cs', jsTruthy m.data.id = true := fun m hm =>
      hids m (by simp only [nodesOfForest]; exact List.mem_append_right _ hm)
    simp only [nodesOfForest] at hn
    rcases List.mem_append.mp hn with hL | hR
    · have hkeyL : n.data.id ∈ (nodesOfNode c).map (fun m => m.data.id) :=
        List.mem_map_of_mem (fun m => m.data.id) hL
      have hneR : ∀ m ∈ nodesOfForest cs', m.data.id ≠ n.data.id := by
        intro m hm hcontra
        exact hsplit.2.2 hkeyL (hcontra ▸ List.mem_map_of_mem (fun m => m.data.id) hm)
      have h1 := childRecs_specNode_mem n c p hp hpk hidsL hsplit.1 hL
      have h2 := childRecs_specForest_ne n.data.id cs' p hp hpk hidsR hneR
      simp only [specFlatForest]
      rw [childRecs_append, h1, h2, List.append_nil]
    · have hkeyR : n.data.id ∈ (nodesOfForest cs').map (fun m => m.data.id) :=
        List.mem_map_of_mem (fun m => m.data.id) hR
      have hneL : ∀ m ∈ nodesOfNode c, m.data.id ≠ n.data.id := by
        intro m hm hcontra
        exact hsplit.2.2 (hcontra ▸ List.mem_map_of_mem (fun m => m.data.id) hm) hkeyR
      have h1 := childRecs_specNode_ne n.data.id c p hp hpk hidsL hneL
      have h2 := childRecs_specForest_mem n cs' p hp hpk hidsR hsplit.2.1 hR
      simp only [specFlatForest]
      rw [childRecs_append, h1, h2, List.nil_append]
end

/-- Top-level analogue of `childRecs_specForest_ne`: roots are emitted
with a `null` structural parent, so when their legacy references are
falsy none of a foreign forest's records matches the key. -/
theorem childRecs_spec_top_ne (k : JStr) :
    ∀ rs : List BlockNode,
      (∀ r ∈ rs, jsTruthy r.data.pp_parentblockid = false) →
      (∀ m ∈ nodesOfForest rs, jsTruthy m.data.id = true) →
      (∀ m ∈ nodesOfForest rs, m.data.id ≠ k) →
      childRecs (specFlatForest rs none) k = [] := by
  intro rs
  induction rs with
  | nil =>
    intro _ _ _
    simp only [specFlatForest]
    rfl
  | cons r rs' ih =>
    intro hroots hids hne
    cases r with
    | node d cs2 =>
      have hself : BlockNode.node d cs2 ∈ nodesOfNode (BlockNode.node d cs2) := by
        simp only [nodesOfNode]
        exact List.mem_cons_self _ _
      have hmemL : ∀ m ∈ nodesOfNode (BlockNode.node d cs2),
          m ∈ nodesOfForest (BlockNode.node d cs2 :: rs') := fun m hm => by
        simp only [nodesOfForest]
        exact List.mem_append_left _ hm
      have hmemSub : ∀ m ∈ nodesOfForest cs2, m ∈ nodesOfNode (BlockNode.node d cs2) :=
        fun m hm => by simp only [nodesOfNode]; exact List.mem_cons_of_mem _ hm
      have hdid : jsTruthy d.id = true := hids _ (hmemL _ hself)
      have hdne : d.id ≠ k := hne _ (hmemL _ hself)
      have hfal : jsTruthy (jsOr none d.pp_parentblockid) = false := by
        rw [show jsOr none d.pp_parentblockid = d.pp_parentblockid from rfl]
        exact hroots _ (List.mem_cons_self _ _)
      have hsub := childRecs_specForest_ne k cs2 d.id hdid hdne
        (fun m hm => hids m (hmemL _ (hmemSub _ hm)))
        (fun m hm => hne m (hmemL _ (hmemSub _ hm)))
      have htail := ih (fun r' hr' => hroots r' (List.mem_cons_of_mem _ hr'))
        (fun m hm => hids m (by simp only [nodesOfForest]; exact List.mem_append_right _ hm))
        (fun m hm => hne m (by simp only [nodesOfForest]; exact List.mem_append_right _ hm))
      simp only [specFlatForest, specFlatNode]
      rw [childRecs_append, childRecs_cons_of_neg _ _ _ (qk_specRec_falsy d none k hfal),
        hsub, htail]
      rfl

/-- Root-subtree version of `childRecs_specNode_mem`: the root record
itself carries a falsy resolved parent. -/
theorem childRecs_specNode_mem_root (n : BlockNode) (d : BlockData) (cs2 : List BlockNode)
    (hfal : jsTruthy (jsOr none d.pp_parentblockid) = false)
    (hids : ∀ m ∈ nodesOfNode (BlockNode.node d cs2), jsTruthy m.data.id = true)
    (hnd : ((nodesOfNode (BlockNode.node d cs2)).map (fun m => m.data.id)).Nodup)
    (hn : n ∈ nodesOfNode (BlockNode.node d cs2)) :
    childRecs (specFlatNode (BlockNode.node d cs2) none) n.data.id
      = n.children.map (fun q => specRec q.data n.data.id) := by
  have hself : BlockNode.node d cs2 ∈ nodesOfNode (BlockNode.node d cs2) := by
    simp only [nodesOfNode]
    exact List.mem_cons_self _ _
  have hmemSub : ∀ m ∈ nodesOfForest cs2, m ∈ nodesOfNode (BlockNode.node d cs2) :=
    fun m hm => by simp only [nodesOfNode]; exact List.mem_cons_of_mem _ hm
  have hdid : jsTruthy d.id = true := hids _ hself
  have hndc : d.id ∉ (nodesOfForest cs2).map (fun m => m.data.id) ∧
      ((nodesOfForest cs2).map (fun m => m.data.id)).Nodup := by
    simp only [nodesOfNode, List.map_cons, BlockNode.data] at hnd
    exact List.nodup_cons.mp hnd
  simp only [nodesOfNode] at hn
  rcases List.mem_cons.mp hn with heq | hdeep
  · subst heq
    have hne2 : ∀ m ∈ nodesOfForest cs2, m.data.id ≠ d.id := by
      intro m hm hcontra
      exact hndc.1 (hcontra ▸ List.mem_map_of_mem (fun m => m.data.id) hm)
    show childRecs (specFlatNode (BlockNode.node d cs2) none) d.id
      = cs2.map (fun q => specRec q.data d.id)
    simp only [specFlatNode]
    rw [childRecs_cons_of_neg _ _ _ (qk_specRec_falsy d none d.id hfal)]
    exact childRecs_specForest_at d.id hdid cs2
      (fun m hm => hids m (hmemSub _ hm)) hne2
  · have hnid : n.data.id ∈ (nodesOfForest cs2).map (fun m => m.data.id) :=
      List.mem_map_of_mem (fun m => m.data.id) hdeep
    have hpk2 : d.id ≠ n.data.id := fun hcontra => hndc.1 (hcontra ▸ hnid)
    simp only [specFlatNode]
    rw [childRecs_cons_of_neg _ _ _ (qk_specRec_falsy d none n.data.id hfal)]
    exact childRecs_specForest_mem n cs2 d.id hdid hpk2
      (fun m hm => hids m (hmemSub _ hm)) hndc.2 hdeep

/-- The records of the whole emission resolving their parent to the id
of a node `n` of the forest are exactly `n`'s children records. -/
theorem childRecs_spec_top (n : BlockNode) :
    ∀ F : List BlockNode,
      AllIdsTruthy F → (forestIds F).Nodup → RootsLegacyFalsy F →
      n ∈ nodesOfForest F →
      childRecs (specFlatForest F none) n.data.id
        = n.children.map (fun q => specRec q.data n.data.id) := by
  intro F
  induction F with
  | nil =>
    intro _ _ _ hn
    simp only [nodesOfForest] at hn
    cases hn
  | cons r rs ih =>
    intro hids hnd hroots hn
    cases r with
    | node d cs2 =>
      have hsplit : ((nodesOfNode (BlockNode.node d cs2)).map (fun m => m.data.id)).Nodup ∧
          ((nodesOfForest rs).map (fun m => m.data.id)).Nodup ∧
          ((nodesOfNode (BlockNode.node d cs2)).map (fun m => m.data.id)).Disjoint
            ((nodesOfForest rs).map (fun m => m.data.id)) := by
        have hnd2 : ((nodesOfForest (BlockNode.node d cs2 :: rs)).map
            (fun m => m.data.id)).Nodup := hnd
        simp only [nodesOfForest, List.map_append] at hnd2
        exact List.nodup_append.mp hnd2
      have hidsL : ∀ m ∈ nodesOfNode (BlockNode.node d cs2), jsTruthy m.data.id = true :=
        fun m hm => hids m (by simp only [nodesOfForest]; exact List.mem_append_left _ hm)
      have hidsR : ∀ m ∈ nodesOfForest rs, jsTruthy m.data.id = true := fun m hm =>
        hids m (by simp only [nodesOfForest]; exact List.mem_append_right _ hm)
      have hfal : jsTruthy (jsOr none d.pp_parentblockid) = false := by
        rw [show jsOr none d.pp_parentblockid = d.pp_parentblockid from rfl]
        exact hroots _ (List.mem_cons_self _ _)
      have hn2 : n ∈ nodesOfNode (BlockNode.node d cs2) ++ nodesOfForest rs := by
        have := hn
        simp only [nodesOfForest] at this
        exact this
      rcases List.mem_append.mp hn2 with hL | hR
      · have hkeyL : n.data.id ∈ (nodesOfNode (BlockNode.node d cs2)).map
            (fun m => m.data.id) := List.mem_map_of_mem (fun m => m.data.id) hL
        have hneR : ∀ m ∈ nodesOfForest rs, m.data.id ≠ n.data.id := by
          intro m hm hcontra
          exact hsplit.2.2 hkeyL (hcontra ▸ List.mem_map_of_mem (fun m => m.data.id) hm)
        have h1 := childRecs_specNode_mem_root n d cs2 hfal hidsL hsplit.1 hL
        have h2 := childRecs_spec_top_ne n.data.id rs
          (fun r' hr' => hroots r' (List.mem_cons_of_mem _ hr')) hidsR hneR
        simp only [specFlatForest]
        rw [childRecs_append, h1, h2, List.append_nil]
      · have hkeyR : n.data.id ∈ (nodesOfForest rs).map (fun m => m.data.id) :=
          List.mem_map_of_mem (fun m => m.data.id) hR
        have hneL : ∀ m ∈ nodesOfNode (BlockNode.node d cs2), m.data.id ≠ n.data.id := by
          intro m hm hcontra
          exact hsplit.2.2 (hcontra ▸ List.mem_map_of_mem (fun m => m.data.id) hm) hkeyR
        have hself : BlockNode.node d cs2 ∈ nodesOfNode (BlockNode.node d cs2) := by
          simp only [nodesOfNode]
          exact List.mem_cons_self _ _
        have hmemSub : ∀ m ∈ nodesOfForest cs2, m ∈ nodesOfNode (BlockNode.node d cs2) :=
          fun m hm => by simp only [nodesOfNode]; exact List.mem_cons_of_mem _ hm
        have hdid : jsTruthy d.id = true := hidsL _ hself
        have hsub := childRecs_specForest_ne n.data.id cs2 d.id hdid
          (hneL _ hself) (fun m hm => hidsL m (hmemSub _ hm))
          (fun m hm => hneL m (hmemSub _ hm))
        have htail := ih hidsR hsplit.2.1
          (fun r' hr' => hroots r' (List.mem_cons_of_mem _ hr')) hR
        simp only [specFlatForest, specFlatNode]
        rw [childRecs_append, childRecs_cons_of_neg _ _ _
            (qk_specRec_falsy d none n.data.id hfal), hsub, htail, List.nil_append]

/-- In a list whose images under `f` are pairwise distinct, the
elements sharing `a`'s image are exactly `[a]`. -/
theorem filter_key_singleton {α β : Type} [DecidableEq β] (f : α → β) :
    ∀ l : List α, (l.map f).Nodup → ∀ a ∈ l, l.filter (fun x => f x = f a) = [a] := by
  intro l
  induction l with
  | nil =>
    intro _ a ha
    cases ha
  | cons x xs ih =>
    intro hnd a ha
    simp only [List.map_cons] at hnd
    obtain ⟨hxnotin, hndtail⟩ := List.nodup_cons.mp hnd
    rcases List.mem_cons.mp ha with heq | hmem
    · subst heq
      rw [List.filter_cons_of_pos (by simp)]
      have htail : xs.filter (fun x => f x = f a) = [] := by
        rw [List.filter_eq_nil_iff]
        intro y hy
        simp only [decide_eq_true_eq]
        intro hcontra
        exact hxnotin (hcontra ▸ List.mem_map_of_mem f hy)
      rw [htail]
    · have hxa : ¬ (f x = f a) := fun hcontra =>
        hxnotin (by rw [hcontra]; exact List.mem_map_of_mem f hmem)
      rw [List.filter_cons_of_neg (by simp [hxa])]
      exact ih hndtail a hmem

/-- Every record of the emission resolves its map key to its own
(truthy) `id` field. -/
theorem specFlat_keys (F : List BlockNode) (hids : AllIdsTruthy F) :
    ∀ b ∈ specFlatForest F none, keyOf b = b.data.id := by
  intro b hb
  have hdata : b.data ∈ (specFlatForest F none).map (fun b => b.data) :=
    List.mem_map_of_mem _ hb
  rw [specFlatForest_data] at hdata
  obtain ⟨m, hm, hmd⟩ := List.mem_map.mp hdata
  have htr : jsTruthy b.data.id = true := by
    rw [← hmd]
    exact hids m hm
  exact jsOr_truthy b.data.id b.data.pp_blockid htr

/-- The map node the rebuild looks up under a node's id carries exactly
that node's data. -/
theorem mapNode_spec_data (F : List BlockNode) (hids : AllIdsTruthy F)
    (hnd : (forestIds F).Nodup) (n : BlockNode) (hn : n ∈ nodesOfForest F) :
    (mapNode (specFlatForest F none) n.data.id).data = n.data := by
  have hdmem : n.data ∈ (specFlatForest F none).map (fun b => b.data) := by
    rw [specFlatForest_data]
    exact List.mem_map_of_mem _ hn
  obtain ⟨rn, hrn, hrnd⟩ := List.mem_map.mp hdmem
  have hkeys := specFlat_keys F hids
  have hndmap : ((specFlatForest F none).map (fun b => b.data.id)).Nodup := by
    have h2 : ((specFlatForest F none).map (fun b => b.data)).map (fun d => d.id)
        = ((nodesOfForest F).map BlockNode.data).map (fun d => d.id) := by
      rw [specFlatForest_data]
    rw [List.map_map, List.map_map] at h2
    have h3 : (specFlatForest F none).map (fun b => b.data.id)
        = (nodesOfForest F).map (fun m => m.data.id) := h2
    rw [h3]
    exact hnd
  have hfil : (specFlatForest F none).filter (fun b => keyOf b = n.data.id) = [rn] := by
    have hcongr : (specFlatForest F none).filter (fun b => keyOf b = n.data.id)
        = (specFlatForest F none).filter (fun b => b.data.id = n.data.id) :=
      List.filter_congr (fun b hb => by rw [hkeys b hb])
    have hid : rn.data.id = n.data.id := by rw [hrnd]
    rw [hcongr, ← hid]
    exact filter_key_singleton (fun b : FlatBlock => b.data.id)
      (specFlatForest F none) hndmap rn hrn
  unfold mapNode
  rw [hfil]
  exact hrnd

theorem childRecs_dropSort (l : List FlatBlock) (k : JStr) :
    (childRecs l k).map dropSort = childRecs (l.map dropSort) k := by
  unfold childRecs
  exact filter_map_dropSort _ (fun b => by rw [parentOf_dropSort]) l

theorem mapNode_dropSort (l : List FlatBlock) (k : JStr) :
    mapNode (l.map dropSort) k = dropSort (mapNode l k) := by
  unfold mapNode
  rw [← filter_map_dropSort _ (fun b => by rw [keyOf_dropSort]) l]
  rw [List.getLast?_map]
  cases (l.filter (fun b => keyOf b = k)).getLast? with
  | none => rfl
  | some b => rfl

/-- The map node the rebuild looks up in the real flat list carries
exactly the looked-up node's data. -/
theorem mapNode_flatten_data (F : List BlockNode) (hids : AllIdsTruthy F)
    (hnd : (forestIds F).Nodup) (n : BlockNode) (hn : n ∈ nodesOfForest F) :
    (mapNode (flattenBlockTree F) n.data.id).data = n.data := by
  have h1 : (mapNode (specFlatForest F none) n.data.id).data = n.data :=
    mapNode_spec_data F hids hnd n hn
  rw [← flattenBlockTree_dropSort, mapNode_dropSort] at h1
  exact h1

/-- The child records the rebuild collects for a node's id are its
children's records, up to sort-order renumbering. -/
theorem childRecs_flatten (F : List BlockNode) (hids : AllIdsTruthy F)
    (hnd : (forestIds F).Nodup) (hroots : RootsLegacyFalsy F)
    (n : BlockNode) (hn : n ∈ nodesOfForest F) :
    (childRecs (flattenBlockTree F) n.data.id).map dropSort
      = n.children.map (fun q => specRec q.data n.data.id) := by
  rw [childRecs_dropSort, flattenBlockTree_dropSort]
  exact childRecs_spec_top n F hids hnd hroots hn

mutual
/-- No interior record (emitted under a truthy parent id) has a falsy
resolved parent reference. -/
theorem rootsFilter_specNode_int (c : BlockNode) (p : JStr) (hp : jsTruthy p = true)
    (hids : ∀ m ∈ nodesOfNode c, jsTruthy m.data.id = true) :
    (specFlatNode c p).filter (fun b => !jsTruthy (parentOf b)) = [] := by
  cases c with
  | node d cs =>
    have hself : BlockNode.node d cs ∈ nodesOfNode (BlockNode.node d cs) := by
      simp only [nodesOfNode]
      exact List.mem_cons_self _ _
    have hdid : jsTruthy d.id = true := hids _ hself
    have h2 := rootsFilter_specForest_int cs d.id hdid
      (fun m hm => hids m (by simp only [nodesOfNode]; exact List.mem_cons_of_mem _ hm))
    simp only [specFlatNode]
    rw [List.filter_cons_of_neg
      (by simp [parentOf_specRec, jsOr_truthy p d.pp_parentblockid hp, hp]), h2]

theorem rootsFilter_specForest_int (cs : List BlockNode) (p : JStr) (hp : jsTruthy p = true)
    (hids : ∀ m ∈ nodesOfForest cs, jsTruthy m.data.id = true) :
    (specFlatForest cs p).filter (fun b => !jsTruthy (parentOf b)) = [] := by
  cases cs with
  | nil =>
    simp only [specFlatForest]
    rfl
  | cons c cs' =>
    have h1 := rootsFilter_specNode_int c p hp
      (fun m hm => hids m (by simp only [nodesOfForest]; exact List.mem_append_left _ hm))
    have h2 := rootsFilter_specForest_int cs' p hp
      (fun m hm => hids m (by simp only [nodesOfForest]; exact List.mem_append_right _ hm))
    simp only [specFlatForest]
    rw [List.filter_append, h1, h2]
    rfl
end

/-- The emission's records with a falsy resolved parent reference are
exactly the root records, in order. -/
theorem rootsFilter_spec (F : List BlockNode) :
    AllIdsTruthy F → RootsLegacyFalsy F →
    (specFlatForest F none).filter (fun b => !jsTruthy (parentOf b))
      = F.map (fun r => specRec r.data none) := by
  induction F with
  | nil =>
    intro _ _
    simp only [specFlatForest, List.map_nil]
    rfl
  | cons r rs ih =>
    intro hids hroots
    cases r with
    | node d cs2 =>
      have hself : BlockNode.node d cs2 ∈ nodesOfNode (BlockNode.node d cs2) := by
        simp only [nodesOfNode]
        exact List.mem_cons_self _ _
      have hmemL : ∀ m ∈ nodesOfNode (BlockNode.node d cs2),
          m ∈ nodesOfForest (BlockNode.node d cs2 :: rs) := fun m hm => by
        simp only [nodesOfForest]
        exact List.mem_append_left _ hm
      have hmemSub : ∀ m ∈ nodesOfForest cs2, m ∈ nodesOfNode (BlockNode.node d cs2) :=
        fun m hm => by simp only [nodesOfNode]; exact List.mem_cons_of_mem _ hm
      have hdid : jsTruthy d.id = true := hids _ (hmemL _ hself)
      have hfal : jsTruthy (parentOf (specRec d none)) = false := by
        rw [parentOf_specRec, show jsOr none d.pp_parentblockid = d.pp_parentblockid from rfl]
        exact hroots _ (List.mem_cons_self _ _)
      have hint := rootsFilter_specForest_int cs2 d.id hdid
        (fun m hm => hids m (hmemL _ (hmemSub _ hm)))
      have htail := ih
        (fun m hm => hids m (by simp only [nodesOfForest]; exact List.mem_append_right _ hm))
        (fun r' hr' => hroots r' (List.mem_cons_of_mem _ hr'))
      simp only [specFlatForest, specFlatNode, List.map_cons, List.filter_append]
      rw [List.filter_cons_of_pos (by simp [hfal]), hint, htail]
      rfl

/-- The rebuild's root records are the forest's root records, up to
sort-order renumbering. -/
theorem rootsFilter_flatten (F : List BlockNode) (hids : AllIdsTruthy F)
    (hroots : RootsLegacyFalsy F) :
    ((flattenBlockTree F).filter (fun b => !jsTruthy (parentOf b))).map dropSort
      = F.map (fun r => specRec r.data none) := by
  rw [filter_map_dropSort _ (fun b => by rw [parentOf_dropSort]) _, flattenBlockTree_dropSort]
  exact rootsFilter_spec F hids hroots

mutual
theorem heightNode_le_size (c : BlockNode) : heightNode c ≤ (nodesOfNode c).length := by
  cases c with
  | node d cs =>
    have h := heightForest_le_size cs
    simp only [heightNode, nodesOfNode, List.length_cons]
    omega

theorem heightForest_le_size (cs : List BlockNode) :
    heightForest cs ≤ (nodesOfForest cs).length := by
  cases cs with
  | nil => simp [heightForest, nodesOfForest]
  | cons c cs' =>
    have h1 := heightNode_le_size c
    have h2 := heightForest_le_size cs'
    simp only [heightForest, nodesOfForest, List.length_append]
    rw [Nat.max_le]
    omega
end

mutual
theorem height_mem_node (m c : BlockNode) (hm : m ∈ nodesOfNode c) :
    heightNode m ≤ heightNode c := by
  cases c with
  | node d cs =>
    simp only [nodesOfNode] at hm
    rcases List.mem_cons.mp hm with heq | hdeep
    · subst heq
      exact Nat.le_refl _
    · have h := height_mem_forest m cs hdeep
      simp only [heightNode]
      omega

theorem height_mem_forest (m : BlockNode) (cs : List BlockNode) (hm : m ∈ nodesOfForest cs) :
    heightNode m ≤ heightForest cs := by
  cases cs with
  | nil =>
    simp only [nodesOfForest] at hm
    cases hm
  | cons c cs' =>
    simp only [nodesOfForest] at hm
    rcases List.mem_append.mp hm with hL | hR
    · have h := height_mem_node m c hL
      simp only [heightForest]
      exact le_trans h (Nat.le_max_left _ _)
    · have h := height_mem_forest m cs' hR
      simp only [heightForest]
      exact le_trans h (Nat.le_max_right _ _)
end

mutual
theorem nodesOfNode_closed (c : BlockNode) :
    ∀ n ∈ nodesOfNode c, ∀ m ∈ nodesOfNode n, m ∈ nodesOfNode c := by
  cases c with
  | node d cs =>
    intro n hn m hm
    simp only [nodesOfNode] at hn ⊢
    rcases List.mem_cons.mp hn with heq | hdeep
    · subst heq
      simp only [nodesOfNode] at hm
      exact hm
    · exact List.mem_cons_of_mem _ (nodesOfForest_closed cs n hdeep m hm)

theorem nodesOfForest_closed (cs : List BlockNode) :
    ∀ n ∈ nodesOfForest cs, ∀ m ∈ nodesOfNode n, m ∈ nodesOfForest cs := by
  cases cs with
  | nil =>
    intro n hn
    simp only [nodesOfForest] at hn
    cases hn
  | cons c cs' =>
    intro n hn m hm
    simp only [nodesOfForest] at hn ⊢
    rcases List.mem_append.mp hn with hL | hR
    · exact List.mem_append_left _ (nodesOfNode_closed c n hL m hm)
    · exact List.mem_append_right _ (nodesOfForest_closed cs' n hR m hm)
end

theorem self_mem_nodesOfForest (cs : List BlockNode) :
    ∀ c ∈ cs, c ∈ nodesOfForest cs := by
  induction cs with
  | nil =>
    intro c hc
    cases hc
  | cons x xs ih =>
    intro c hc
    simp only [nodesOfForest]
    rcases List.mem_cons.mp hc with heq | hmem
    · subst heq
      refine List.mem_append_left _ ?_
      cases c with
      | node d cs2 =>
        simp only [nodesOfNode]
        exact List.mem_cons_self _ _
    · exact List.mem_append_right _ (ih c hmem)

theorem children_mem_nodes (F : List BlockNode) (n : BlockNode) (hn : n ∈ nodesOfForest F) :
    ∀ c ∈ n.children, c ∈ nodesOfForest F := by
  intro c hc
  refine nodesOfForest_closed F n hn c ?_
  cases n with
  | node d cs2 =>
    simp only [BlockNode.children] at hc
    simp only [nodesOfNode]
    exact List.mem_cons_of_mem _ (self_mem_nodesOfForest cs2 c hc)

theorem flatten_length (F : List BlockNode) :
    (flattenBlockTree F).length = (nodesOfForest F).length := by
  have h1 : ((flattenBlockTree F).map dropSort).length = (flattenBlockTree F).length :=
    List.length_map _ _
  have h2 : ((specFlatForest F none).map (fun b => b.data)).length
      = ((nodesOfForest F).map BlockNode.data).length := by
    rw [specFlatForest_data]
  rw [flattenBlockTree_dropSort] at h1
  rw [List.length_map, List.length_map] at h2
  rw [← h1, h2]

/-- Rebuild-then-strip over a record list matching (up to sort-order
renumbering) the canonical records of a node list. -/
theorem strip_map_build (flats : List FlatBlock) (F : List BlockNode) (fuel : Nat)
    (k0 : JStr)
    (hbuild : ∀ n ∈ nodesOfForest F, heightNode n ≤ fuel →
      stripNode (buildNode flats fuel n.data.id) = n) :
    ∀ (rs : List FlatBlock) (cs : List BlockNode),
      rs.map dropSort = cs.map (fun q => specRec q.data k0) →
      (∀ c ∈ cs, c ∈ nodesOfForest F) →
      (∀ c ∈ cs, jsTruthy c.data.id = true) →
      (∀ c ∈ cs, heightNode c ≤ fuel) →
      stripForest (rs.map (fun b => buildNode flats fuel (keyOf b))) = cs := by
  intro rs
  induction rs with
  | nil =>
    intro cs hmap _ _ _
    cases cs with
    | nil => rfl
    | cons c cs' => simp at hmap
  | cons b rs' ih =>
    intro cs hmap hmem hids hht
    cases cs with
    | nil => simp at hmap
    | cons c cs' =>
      simp only [List.map_cons] at hmap
      obtain ⟨hb, hrs⟩ := List.cons.inj hmap
      have hkey : keyOf b = c.data.id := by
        rw [← keyOf_dropSort, hb]
        exact jsOr_truthy c.data.id c.data.pp_blockid (hids c (List.mem_cons_self _ _))
      simp only [List.map_cons, stripForest]
      rw [hkey, hbuild c (hmem c (List.mem_cons_self _ _)) (hht c (List.mem_cons_self _ _)),
        ih cs' hrs (fun x hx => hmem x (List.mem_cons_of_mem _ hx))
          (fun x hx => hids x (List.mem_cons_of_mem _ hx))
          (fun x hx => hht x (List.mem_cons_of_mem _ hx))]

/-- With enough fuel, rebuilding at a node's id and stripping the
decoration returns exactly that node. -/
theorem build_strip (F : List BlockNode) (hids : AllIdsTruthy F)
    (hnd : (forestIds F).Nodup) (hroots : RootsLegacyFalsy F) :
    ∀ fuel : Nat, ∀ n ∈ nodesOfForest F, heightNode n ≤ fuel →
      stripNode (buildNode (flattenBlockTree F) fuel n.data.id) = n := by
  intro fuel
  induction fuel with
  | zero =>
    intro n hn hh
    cases n with
    | node d cs =>
      simp only [heightNode] at hh
      omega
  | succ fuel ih =>
    intro n hn hh
    have hdata := mapNode_flatten_data F hids hnd n hn
    have hchild := childRecs_flatten F hids hnd hroots n hn
    have hmemc := children_mem_nodes F n hn
    have hidsc : ∀ c ∈ n.children, jsTruthy c.data.id = true :=
      fun c hc => hids c (hmemc c hc)
    have hhtc : ∀ c ∈ n.children, heightNode c ≤ fuel := by
      intro c hc
      have h1 : heightNode c ≤ heightForest n.children := by
        cases n with
        | node d cs =>
          simp only [BlockNode.children] at hc ⊢
          exact height_mem_forest c cs (self_mem_nodesOfForest cs c hc)
      have h2 : heightForest n.children + 1 ≤ fuel + 1 := by
        cases n with
        | node d cs =>
          simp only [heightNode] at hh
          simp only [BlockNode.children]
          omega
      omega
    have hstrip := strip_map_build (flattenBlockTree F) F fuel n.data.id ih
      (childRecs (flattenBlockTree F) n.data.id) n.children hchild hmemc hidsc hhtc
    cases n with
    | node d cs =>
      show stripNode (buildNode (flattenBlockTree F) (fuel + 1) d.id) = BlockNode.node d cs
      simp only [buildNode, stripNode]
      rw [show (mapNode (flattenBlockTree F) d.id).data = d from hdata]
      rw [show stripForest ((childRecs (flattenBlockTree F) d.id).map
          (fun b => buildNode (flattenBlockTree F) fuel (keyOf b))) = cs from hstrip]

/-- C1 (amended): for every forest whose nodes carry pairwise distinct
truthy ids and none of whose roots carries a truthy legacy
`pp_parentblockid`, flattening with `flattenBlockTree` and rebuilding
with `buildBlockTree` reproduces the forest exactly — same parent/child
structure, same node content, same sibling order — once the rebuilt
nodes' bookkeeping decoration (the overwritten `parentBlockId` fields
and the renumbered pre-order sort orders) is stripped.  Without the
root condition the round trip can lose a root, see the
counterexample. -/
theorem C1_flatten_build_roundtrip (F : List BlockNode) (hids : AllIdsTruthy F)
    (hnd : (forestIds F).Nodup) (hroots : RootsLegacyFalsy F) :
    stripForest (buildBlockTree (flattenBlockTree F)) = F := by
  have hbuild := build_strip F hids hnd hroots (flattenBlockTree F).length
  have hrootsmap := rootsFilter_flatten F hids hroots
  have hmemF : ∀ c ∈ F, c ∈ nodesOfForest F := self_mem_nodesOfForest F
  have hidsF : ∀ c ∈ F, jsTruthy c.data.id = true := fun c hc => hids c (hmemF c hc)
  have hhtF : ∀ c ∈ F, heightNode c ≤ (flattenBlockTree F).length := by
    intro c hc
    have h1 := height_mem_forest c F (hmemF c hc)
    have h2 := heightForest_le_size F
    rw [flatten_length]
    omega
  unfold buildBlockTree
  exact strip_map_build (flattenBlockTree F) F (flattenBlockTree F).length none hbuild
    ((flattenBlockTree F).filter (fun b => !jsTruthy (parentOf b))) F
    hrootsmap hmemF hidsF hhtF

/-- The claim as stated fails at `staleForest`: its hypotheses hold
(two roots with distinct truthy ids; the only parent reference, the
second root's legacy `pp_parentblockid`, names an id inside the
forest), yet the round trip does not reproduce the forest — the
rebuild re-attaches the second root under the first. -/
theorem C1_counterexample :
    AllIdsTruthy staleForest ∧ (forestIds staleForest).Nodup ∧
    ParentRefsInside staleForest ∧
    stripForest (buildBlockTree (flattenBlockTree staleForest)) ≠ staleForest := by
  refine ⟨?_, ?_, ?_, ?_⟩
  · unfold AllIdsTruthy
    decide
  · decide
  · unfold ParentRefsInside
    decide
  · decide

/-- Witness for C1 at the concrete forest `[B, A[X, Y], C]`. -/
theorem C1_witness :
    AllIdsTruthy exampleForest ∧ (forestIds exampleForest).Nodup ∧
    RootsLegacyFalsy exampleForest ∧
    stripForest (buildBlockTree (flattenBlockTree exampleForest)) = exampleForest :=
  ⟨by unfold AllIdsTruthy; decide, by decide, by unfold RootsLegacyFalsy; decide,
    C1_flatten_build_roundtrip exampleForest (by unfold AllIdsTruthy; decide) (by decide)
      (by unfold RootsLegacyFalsy; decide)⟩

end PPB
